import Mathlib

/-!
# Verification of the mdexplorer tool-mediation subsystem

A shallow embedding of the path sandbox, file-store operations, AI tool
registry and change-proposal pipeline of the mdexplorer repository,
together with theorems settling the specification claims.

Paths are modelled as strings.  `resolveAbs` models Node's `path.resolve`
on absolute POSIX paths (all paths handled by the repository are absolute);
the filesystem is an association list from resolved paths to entries.
-/

namespace MdExplorer

/-! ## String helpers (models of the JS string operations used) -/

/-- Model of JS `a.startsWith(b)`. -/
def strStartsWith (a b : String) : Bool :=
  b.toList.isPrefixOf a.toList

/-- Model of JS `a.endsWith(b)`. -/
def strEndsWith (a b : String) : Bool :=
  b.toList.isSuffixOf a.toList

/-- Model of JS `a.toLowerCase()`. -/
def lowerStr (s : String) : String :=
  String.mk (s.toList.map Char.toLower)

/-- Drop the last `n` characters of a string (the suffix-stripping done by
`path.basename(p, ext)`). -/
def strDropRight (s : String) (n : Nat) : String :=
  String.mk (s.toList.take (s.toList.length - n))

/-- Model of JS `a.trim()`. -/
def strTrim (s : String) : String :=
  String.mk ((((s.toList.dropWhile Char.isWhitespace).reverse).dropWhile
    Char.isWhitespace).reverse)

/-! ## Path model: Node `path` module on absolute POSIX paths -/

/-- Prepend a character to the first chunk of a split. -/
def consHead (c : Char) : List (List Char) → List (List Char)
  | [] => [[c]]
  | s :: ss => (c :: s) :: ss

/-- Split a character list at every `/`. Always returns a non-empty list. -/
def splitChars : List Char → List (List Char)
  | [] => [[]]
  | c :: cs =>
    if c = '/' then [] :: splitChars cs else consHead c (splitChars cs)

/-- One step of path normalization: skip empty and `.` segments, pop on `..`,
push any other segment. -/
def normStep (stack : List String) (seg : String) : List String :=
  if seg = "" ∨ seg = "." then stack
  else if seg = ".." then stack.dropLast
  else stack ++ [seg]

/-- The normalized segment list of a path string. -/
def segsOf (p : String) : List String :=
  ((splitChars p.toList).map String.mk).foldl normStep []

/-- Join segments with `/` (no leading slash). -/
def joinSegs : List String → String
  | [] => ""
  | [s] => s
  | s :: ss => s ++ "/" ++ joinSegs ss

/-- Node `path.resolve` on an absolute path: normalization to
`"/" ++ seg₁ ++ "/" ++ … ++ segₙ`. -/
def resolveAbs (p : String) : String :=
  "/" ++ joinSegs (segsOf p)

/-- Model of Node `path.resolve(p)` (all repository paths are absolute, so
resolution against the working directory never arises). -/
def pathResolve (p : String) : String := resolveAbs p

/-- Model of Node `path.join(a, b)` for an absolute `a`. -/
def pathJoin (a b : String) : String := resolveAbs (a ++ "/" ++ b)

/-- Model of Node `path.dirname` on a resolved path. -/
def pathDirname (p : String) : String :=
  "/" ++ joinSegs (segsOf p).dropLast

/-- Model of Node `path.basename` on a resolved path. -/
def pathBasename (p : String) : String :=
  ((segsOf p).getLast?).getD ""

/-- Model of Node `path.extname`: the suffix of the basename from its last
dot, provided that dot is not the first character. -/
def pathExtname (p : String) : String :=
  let cs := (pathBasename p).toList
  let pre := cs.reverse.takeWhile (fun c => ¬ (c = '.'))
  if pre.length + 1 < cs.length then String.mk ('.' :: pre.reverse) else ""

/-- A well-formed path segment: nonempty, not a dot segment, and free of
separators.  Every segment of a resolved path is of this shape. -/
def cleanSeg (s : String) : Prop :=
  s ≠ "" ∧ s ≠ "." ∧ s ≠ ".." ∧ '/' ∉ s.toList

/-! ## Settings and sandbox validation -/

/-- `AppSettings` from `src/types/index.ts`. -/
structure AppSettings where
  rootDirectory : String
  excludedExtensions : List String
  excludedFolders : List String
  theme : String
deriving DecidableEq, Repr

/-- Return shape of `validatePathSecurity` in
`src/actions/file-management-actions.ts`. -/
structure ValidationResult where
  valid : Bool
  resolvedPath : String
  rootPath : String
deriving DecidableEq, Repr

/-- `validatePathSecurity` (file-management-actions.ts): plain
`startsWith` comparison of the two resolved paths. -/
def validatePathSecurity (settings : AppSettings) (targetPath : String) :
    ValidationResult :=
  let resolvedPath := pathResolve targetPath
  let rootPath := pathResolve settings.rootDirectory
  { valid := strStartsWith resolvedPath rootPath, resolvedPath, rootPath }

/-- `validatePath` (execute-tool route and chat route): same plain
`startsWith` comparison. -/
def validatePath (filePath rootDirectory : String) : Bool :=
  strStartsWith (pathResolve filePath) (pathResolve rootDirectory)

/-- The boundary-aware validation relation stated by the spec (P1): the
resolved target is the resolved root itself or a true path-segment
descendant of it.  Used only to compare the code against the claim. -/
def specBoundaryDescendant (p r : String) : Bool :=
  pathResolve p = pathResolve r ∨
    strStartsWith (pathResolve p) (pathResolve r ++ "/")

/-! ## Filesystem model

An association list from resolved absolute paths to entries; the most
recent binding for a key wins.  The filesystem root `/` always exists. -/

inductive FsEntry where
  | file (content : String)
  | dir
deriving DecidableEq, Repr

instance {ε α : Type} [DecidableEq ε] [DecidableEq α] :
    DecidableEq (Except ε α) := fun a b =>
  match a, b with
  | .ok x, .ok y =>
    if h : x = y then .isTrue (by rw [h])
    else .isFalse (fun he => h (Except.ok.inj he))
  | .error x, .error y =>
    if h : x = y then .isTrue (by rw [h])
    else .isFalse (fun he => h (Except.error.inj he))
  | .ok _, .error _ => .isFalse (fun he => Except.noConfusion he)
  | .error _, .ok _ => .isFalse (fun he => Except.noConfusion he)

abbrev Fs := List (String × FsEntry)

/-- Look up the entry stored at a path (the OS resolves the path). -/
def fsLookup (fs : Fs) (p : String) : Option FsEntry :=
  ((fs.find? (fun kv => kv.1 = pathResolve p)).map (fun kv => kv.2))

/-- Model of `fs.access`: does the path exist?  The root always does. -/
def fsExists (fs : Fs) (p : String) : Bool :=
  (fsLookup fs p).isSome || pathResolve p = "/"

/-- Model of `fs.stat`: the entry at a path, or an ENOENT failure. -/
def fsStat (fs : Fs) (p : String) : Except String FsEntry :=
  match fsLookup fs p with
  | some e => .ok e
  | none =>
    if pathResolve p = "/" then .ok .dir
    else .error "ENOENT: no such file or directory"

/-- `stats.size` for a file is the UTF-8 byte length of its content. -/
def entrySize : FsEntry → Nat
  | .file c => c.utf8ByteSize
  | .dir => 0

/-- Model of `fs.readFile(p, "utf-8")`. -/
def fsReadFile (fs : Fs) (p : String) : Except String String :=
  match fsStat fs p with
  | .ok (.file c) => .ok c
  | .ok .dir => .error "EISDIR: illegal operation on a directory"
  | .error e => .error e

/-- Model of `fs.writeFile(p, content)`. -/
def fsWrite (fs : Fs) (p : String) (content : String) : Fs :=
  (pathResolve p, FsEntry.file content) :: fs

/-- All the normalized prefixes of a path, from `/` up to the path itself. -/
def ancestorPaths (p : String) : List String :=
  (List.range ((segsOf p).length + 1)).map
    (fun i => "/" ++ joinSegs ((segsOf p).take i))

/-- Model of `fs.mkdir(p, { recursive: true })`: create every missing
ancestor directory. -/
def mkdirRec (fs : Fs) (p : String) : Fs :=
  (ancestorPaths p).foldl
    (fun acc q => if fsExists acc q then acc else (q, FsEntry.dir) :: acc) fs

/-- Remove a path and its whole subtree (shared by `fs.rm`, `fs.unlink`
and the trash-based deletion, all of which remove the path from the live
tree). -/
def fsRemoveTree (fs : Fs) (p : String) : Fs :=
  let r := pathResolve p
  fs.filter (fun kv => ¬ (kv.1 = r ∨ strStartsWith kv.1 (r ++ "/")))

/-- Model of `fs.rename`.  Per rename(2), the call fails when the old path
is the filesystem root or when the new path contains the old path as a
directory prefix (EINVAL/EBUSY), and when the source is missing (ENOENT). -/
def primRename (fs : Fs) (oldPath newPath : String) : Except String Fs :=
  let o := pathResolve oldPath
  let n := pathResolve newPath
  if o = "/" ∨ strStartsWith n (o ++ "/") then .error "EINVAL: invalid argument"
  else if (fsLookup fs oldPath).isNone then
    .error "ENOENT: no such file or directory"
  else
    .ok (fs.map (fun kv =>
      if kv.1 = o then (n, kv.2)
      else if strStartsWith kv.1 (o ++ "/") then
        (n ++ kv.1.drop o.length, kv.2)
      else kv))

/-! ## FileStore operations (src/actions) -/

/-- Decimal digit character, as produced by JS number-to-string. -/
def digitChar : Nat → Char
  | 0 => '0'
  | 1 => '1'
  | 2 => '2'
  | 3 => '3'
  | 4 => '4'
  | 5 => '5'
  | 6 => '6'
  | 7 => '7'
  | 8 => '8'
  | _ => '9'

/-- Decimal digit expansion with explicit fuel (`n + 1` is always enough,
see `natDigitsGo_fuel`). -/
def natDigitsGo : Nat → Nat → List Char
  | 0, _ => []
  | fuel + 1, n =>
    if n < 10 then [digitChar n]
    else natDigitsGo fuel (n / 10) ++ [digitChar (n % 10)]

/-- Decimal digits of a natural number, most significant first. -/
def natDigits (n : Nat) : List Char := natDigitsGo (n + 1) n

/-- Model of the JS template-literal rendering of a natural number. -/
def natToStr (n : Nat) : String := String.mk (natDigits n)

structure CreateFileResult where
  success : Bool
  filePath : Option String := none
  error : Option String := none
deriving DecidableEq, Repr

structure RenameResult where
  success : Bool
  newPath : Option String := none
  error : Option String := none
deriving DecidableEq, Repr

structure MoveResult where
  success : Bool
  newPath : Option String := none
  error : Option String := none
deriving DecidableEq, Repr

structure DeleteResult where
  success : Bool
  error : Option String := none
deriving DecidableEq, Repr

structure WriteResult where
  success : Bool
  error : Option String := none
deriving DecidableEq, Repr

structure AcceptResult where
  success : Bool
  error : Option String := none
  bytesWritten : Option Nat := none
deriving DecidableEq, Repr

structure DuplicateResult where
  success : Bool
  newPath : Option String := none
  error : Option String := none
deriving DecidableEq, Repr

/-- `createFile` (file-management-actions.ts). -/
def createFile (settings : AppSettings) (parentPath fileName content : String)
    (fs : Fs) : CreateFileResult × Fs :=
  let targetDir := if parentPath = "" then settings.rootDirectory else parentPath
  let filePath := pathJoin targetDir fileName
  let v := validatePathSecurity settings filePath
  if ¬ v.valid then
    ({ success := false,
       error := some "Access denied: Path is outside the allowed directory" }, fs)
  else if fsExists fs v.resolvedPath then
    ({ success := false,
       error := some "A file with this name already exists" }, fs)
  else
    let fs1 := mkdirRec fs (pathDirname v.resolvedPath)
    ({ success := true, filePath := some v.resolvedPath },
     fsWrite fs1 v.resolvedPath content)

/-- `renameItem` (file-management-actions.ts). -/
def renameItem (settings : AppSettings) (oldPath newName : String) (fs : Fs) :
    RenameResult × Fs :=
  let vOld := validatePathSecurity settings oldPath
  if ¬ vOld.valid then
    ({ success := false,
       error := some "Access denied: Source path is outside the allowed directory" },
     fs)
  else
    let parentDir := pathDirname vOld.resolvedPath
    let newPath := pathJoin parentDir newName
    let vNew := validatePathSecurity settings newPath
    if ¬ vNew.valid then
      ({ success := false,
         error := some "Access denied: Destination path is outside the allowed directory" },
       fs)
    else if fsExists fs vNew.resolvedPath then
      ({ success := false,
         error := some "An item with this name already exists" }, fs)
    else
      match primRename fs vOld.resolvedPath vNew.resolvedPath with
      | .ok fs2 => ({ success := true, newPath := some vNew.resolvedPath }, fs2)
      | .error e => ({ success := false, error := some e }, fs)

/-- `moveItem` (file-management-actions.ts).  On a rename failure the
directories created by the preceding `mkdir` remain, as on disk. -/
def moveItem (settings : AppSettings) (sourcePath targetFolderPath : String)
    (fs : Fs) : MoveResult × Fs :=
  let vSrc := validatePathSecurity settings sourcePath
  if ¬ vSrc.valid then
    ({ success := false,
       error := some "Access denied: Source path is outside the allowed directory" },
     fs)
  else
    let itemName := pathBasename vSrc.resolvedPath
    let destinationPath := pathJoin targetFolderPath itemName
    let vDest := validatePathSecurity settings destinationPath
    if ¬ vDest.valid then
      ({ success := false,
         error := some "Access denied: Destination path is outside the allowed directory" },
       fs)
    else if strStartsWith vDest.resolvedPath (vSrc.resolvedPath ++ "/") then
      ({ success := false, error := some "Cannot move a folder into itself" }, fs)
    else if fsExists fs vDest.resolvedPath then
      ({ success := false,
         error := some "An item with this name already exists at the destination" },
       fs)
    else
      let fs1 := mkdirRec fs (pathDirname vDest.resolvedPath)
      match primRename fs1 vSrc.resolvedPath vDest.resolvedPath with
      | .ok fs2 => ({ success := true, newPath := some vDest.resolvedPath }, fs2)
      | .error e => ({ success := false, error := some e }, fs1)

/-- `deleteItem` (file-management-actions.ts).  Both the trash path and the
permanent path remove the subtree from the live filesystem; the
recent-files pruning is not modelled. -/
def deleteItem (settings : AppSettings) (itemPath : String) (_useTrash : Bool)
    (fs : Fs) : DeleteResult × Fs :=
  let v := validatePathSecurity settings itemPath
  if ¬ v.valid then
    ({ success := false,
       error := some "Access denied: Path is outside the allowed directory" }, fs)
  else
    match fsStat fs v.resolvedPath with
    | .error e => ({ success := false, error := some e }, fs)
    | .ok _ => ({ success := true }, fsRemoveTree fs v.resolvedPath)

/-- The candidate file name tried by `duplicateFile` at counter value `n`:
`base copy<ext>` first, `base copy n<ext>` from the second attempt on. -/
def copyName (baseName ext : String) (n : Nat) : String :=
  if n ≤ 1 then baseName ++ " copy" ++ ext
  else baseName ++ " copy " ++ natToStr n ++ ext

/-- The candidate path tried by `duplicateFile` at counter value `n`. -/
def copyCandidate (dir baseName ext : String) (n : Nat) : String :=
  pathJoin dir (copyName baseName ext n)

/-- Counter value at which the `duplicateFile` search loop stops: the first
candidate name that does not exist.  The search range suffices because the
candidates are pairwise distinct while the filesystem is finite (see
`firstFreeCopyIndex_free`); the fallback branch is unreachable. -/
def firstFreeCopyIndex (fs : Fs) (dir baseName ext : String) : Nat :=
  match (List.range (fs.length + 2)).find?
      (fun m => ¬ fsExists fs (copyCandidate dir baseName ext (m + 1))) with
  | some m => m + 1
  | none => fs.length + 2

/-- `duplicateFile` (file-management-actions.ts).  `path.basename(p, ext)`
with `ext = path.extname(p)` strips the extension suffix, which is always a
proper suffix of the basename. -/
def duplicateFile (settings : AppSettings) (filePath : String) (fs : Fs) :
    DuplicateResult × Fs :=
  let v := validatePathSecurity settings filePath
  if ¬ v.valid then
    ({ success := false,
       error := some "Access denied: Path is outside the allowed directory" }, fs)
  else
    match fsStat fs v.resolvedPath with
    | .error e => ({ success := false, error := some e }, fs)
    | .ok FsEntry.dir =>
      ({ success := false, error := some "Can only duplicate files" }, fs)
    | .ok (FsEntry.file content) =>
      let ext := pathExtname v.resolvedPath
      let baseName := strDropRight (pathBasename v.resolvedPath) ext.length
      let dir := pathDirname v.resolvedPath
      let k := firstFreeCopyIndex fs dir baseName ext
      let newPath := copyCandidate dir baseName ext k
      ({ success := true, newPath := some newPath },
       fsWrite fs newPath content)

/-- `writeFile` (file-actions.ts): the sandbox failure is thrown and caught
by the surrounding try, producing a structured error result. -/
def writeFileAction (settings : AppSettings) (filePath content : String)
    (fs : Fs) : WriteResult × Fs :=
  let resolvedPath := pathResolve filePath
  let resolvedRoot := pathResolve settings.rootDirectory
  if ¬ strStartsWith resolvedPath resolvedRoot then
    ({ success := false,
       error := some "Access denied: File is outside the allowed directory" }, fs)
  else
    let fs1 := mkdirRec fs (pathDirname resolvedPath)
    ({ success := true }, fsWrite fs1 resolvedPath content)

/-- `readFile` (file-actions.ts): there is no try/catch, so the sandbox
violation and any filesystem failure propagate as exceptions
(`Except.error`), not as a structured result. -/
def readFileAction (settings : AppSettings) (filePath : String) (fs : Fs) :
    Except String String :=
  let resolvedPath := pathResolve filePath
  let resolvedRoot := pathResolve settings.rootDirectory
  if ¬ strStartsWith resolvedPath resolvedRoot then
    .error "Access denied: File is outside the allowed directory"
  else fsReadFile fs resolvedPath

/-- `acceptProposedChange` (ai-change-actions.ts): sandboxed write followed
by a post-write stat whose size is reported as `bytesWritten`. -/
def acceptProposedChange (settings : AppSettings)
    (filePath proposedContent : String) (fs : Fs) : AcceptResult × Fs :=
  let resolvedPath := pathResolve filePath
  let resolvedRoot := pathResolve settings.rootDirectory
  if ¬ strStartsWith resolvedPath resolvedRoot then
    ({ success := false,
       error := some "Access denied: File is outside the allowed directory" }, fs)
  else
    let fs1 := mkdirRec fs (pathDirname resolvedPath)
    let fs2 := fsWrite fs1 resolvedPath proposedContent
    let bytesWritten := match fsStat fs2 resolvedPath with
      | .ok e => entrySize e
      | .error _ => 0
    ({ success := true, bytesWritten := some bytesWritten }, fs2)

/-! ## readDirectory (file-actions.ts) -/

/-- `shouldExclude` (file-actions.ts). -/
def shouldExclude (settings : AppSettings) (name : String)
    (isDirectory : Bool) : Bool :=
  if isDirectory then
    settings.excludedFolders.any
      (fun folder => name = folder ∨ lowerStr name = lowerStr folder)
  else
    let ext := lowerStr (pathExtname name)
    settings.excludedExtensions.any
      (fun excludedExt => ext = lowerStr excludedExt)

inductive NodeType where
  | file
  | directory
deriving DecidableEq, Repr

/-- `FileNode` from `src/types/index.ts`. -/
structure FileNode where
  name : String
  path : String
  type : NodeType
  extension : Option String := none
  children : Option (List FileNode) := none
deriving Repr

/-- A raw directory listing, as returned by `fs.readdir` before filtering
and sorting. -/
inductive DirEntry where
  | file (name : String)
  | dir (name : String) (children : List DirEntry)
deriving Repr

def DirEntry.name : DirEntry → String
  | .file n => n
  | .dir n _ => n

def DirEntry.isDir : DirEntry → Bool
  | .file _ => false
  | .dir _ _ => true

/-- The sort comparator of `readDirectory`: directories before files, each
group by name (`localeCompare` modelled as lexicographic string order). -/
def nodeLe (a b : FileNode) : Bool :=
  if a.type = b.type then a.name ≤ b.name
  else a.type = NodeType.directory

mutual

/-- One iteration of the `readDirectory` loop: skip an excluded entry,
otherwise build its `FileNode` (directories carry their recursively read
children, files carry their lower-cased extension). -/
def nodeOf (settings : AppSettings) (targetPath : String) :
    DirEntry → Option FileNode
  | .file name =>
    if shouldExclude settings name false then none
    else
      some { name, path := pathJoin targetPath name, type := NodeType.file,
             extension := some (lowerStr (pathExtname name)),
             children := none }
  | .dir name children =>
    if shouldExclude settings name true then none
    else
      some { name, path := pathJoin targetPath name,
             type := NodeType.directory, extension := none,
             children := some (readDirectory settings
               (pathJoin targetPath name) children) }

def collectNodes (settings : AppSettings) (targetPath : String) :
    List DirEntry → List FileNode
  | [] => []
  | e :: rest =>
    match nodeOf settings targetPath e with
    | some n => n :: collectNodes settings targetPath rest
    | none => collectNodes settings targetPath rest

/-- `readDirectory` (file-actions.ts) on a directory listing: filter by
settings, then sort directories first, both alphabetically. -/
def readDirectory (settings : AppSettings) (targetPath : String)
    (entries : List DirEntry) : List FileNode :=
  (collectNodes settings targetPath entries).mergeSort nodeLe

end

/-! ## Model allow-list and chat-route model selection
(src/lib/models.ts and the chat route) -/

inductive Provider where
  | openai
  | anthropic
  | google
deriving DecidableEq, Repr

structure ModelConfig where
  id : String
  name : String
  provider : Provider
  description : String
deriving DecidableEq, Repr

/-- The `MODELS` table of `src/lib/models.ts`. -/
def MODELS : List ModelConfig := [
  { id := "gpt-5.2", name := "GPT-5.2", provider := .openai,
    description := "Latest flagship model with advanced reasoning" },
  { id := "gpt-5.2-turbo", name := "GPT-5.2 Turbo", provider := .openai,
    description := "Faster variant of GPT-5.2" },
  { id := "o3-preview", name := "O3 Preview", provider := .openai,
    description := "Next-gen reasoning model (preview)" },
  { id := "gpt-4o", name := "GPT-4o", provider := .openai,
    description := "Multimodal model with vision capabilities" },
  { id := "gpt-4o-mini", name := "GPT-4o Mini", provider := .openai,
    description := "Fast and cost-effective" },
  { id := "claude-sonnet-4-20250514", name := "Claude Sonnet 4",
    provider := .anthropic,
    description := "Latest Claude model with enhanced capabilities" },
  { id := "claude-3-5-sonnet-latest", name := "Claude 3.5 Sonnet",
    provider := .anthropic,
    description := "Balanced performance and speed" },
  { id := "gemini-3-pro-preview", name := "Gemini 3 Pro Preview",
    provider := .google,
    description := "Most advanced Gemini model (preview)" },
  { id := "gemini-3-flash-preview", name := "Gemini 3 Flash Preview",
    provider := .google,
    description := "Fast next-gen Gemini model (preview)" },
  { id := "gemini-2.5-pro", name := "Gemini 2.5 Pro", provider := .google,
    description := "Latest stable Gemini with enhanced reasoning" },
  { id := "gemini-2.0-flash-exp", name := "Gemini 2.0 Flash",
    provider := .google,
    description := "Fast and cost-effective" }]

def ALLOWED_MODEL_IDS : List String := MODELS.map (fun m => m.id)

def isValidModelId (modelId : String) : Bool :=
  ALLOWED_MODEL_IDS.contains modelId

def getModelConfig (modelId : String) : Option ModelConfig :=
  MODELS.find? (fun m => m.id = modelId)

/-- A provider client instance, as produced by the `ai-sdk` factories. -/
inductive LanguageModel where
  | openai (modelId : String)
  | anthropic (modelId : String)
  | google (modelId : String)
deriving DecidableEq, Repr

/-- `getModelInstance` (models.ts), including its silent fallback to
`gpt-4o-mini` on an unknown identifier. -/
def getModelInstance (modelId : String) : LanguageModel :=
  match getModelConfig modelId with
  | none => .openai "gpt-4o-mini"
  | some config =>
    match config.provider with
    | .openai => .openai modelId
    | .anthropic => .anthropic modelId
    | .google => .google modelId

/-- `getProviderFromModelId` (models.ts). -/
def getProviderFromModelId (modelId : String) : Provider :=
  ((getModelConfig modelId).map (fun c => c.provider)).getD .openai

def DEFAULT_MODEL_ID : String := "gemini-3-flash-preview"

inductive ChatRouteOutcome where
  | badRequest (status : Nat) (error : String)
  | proceed (model : LanguageModel) (provider : Provider)
deriving DecidableEq, Repr

/-- The model-selection prefix of the chat route `POST` handler: a missing
`model` field defaults to `DEFAULT_MODEL_ID`; an identifier outside the
allow-list is rejected with HTTP 400 before any provider client is built. -/
def chatRouteSelectModel (modelField : Option String) : ChatRouteOutcome :=
  let model := modelField.getD DEFAULT_MODEL_ID
  if ¬ isValidModelId model then .badRequest 400 "Invalid model"
  else .proceed (getModelInstance model) (getProviderFromModelId model)

/-! ## Tool registry (the chat route's tool definitions) -/

structure PermissionRequest where
  toolName : String
  action : String
  reason : String
  filePath : Option String := none
  pattern : Option String := none
  query : Option String := none
  filePattern : Option String := none
deriving DecidableEq, Repr

structure ToolResult where
  success : Bool
  requiresPermission : Bool := false
  error : Option String := none
  permissionRequest : Option PermissionRequest := none
  message : Option String := none
deriving DecidableEq, Repr

/-- First invocation of `readMarkdownFile` (`createReadMarkdownFileTool`):
read-only precondition checks, then a permission request.  The decorative
glyphs and quotes of the source messages are elided. -/
def readMarkdownFileTool (rootDirectory : Option String) (fs : Fs)
    (filePath reason : String) : ToolResult :=
  let sandboxOk := match rootDirectory with
    | some rd => validatePath filePath rd
    | none => true
  if !sandboxOk then
    { success := false, requiresPermission := false,
      error := some ("Access denied: Path " ++ filePath ++
        " is outside the allowed directory") }
  else
    match fsStat fs filePath with
    | .error e =>
      { success := false, error := some e, requiresPermission := false }
    | .ok FsEntry.dir =>
      { success := false, error := some "Path is not a file",
        requiresPermission := false }
    | .ok (FsEntry.file _) =>
      if ¬ strEndsWith (lowerStr filePath) ".md" then
        { success := false, error := some "File is not a markdown file",
          requiresPermission := false }
      else
        { success := false, requiresPermission := true,
          permissionRequest := some
            { toolName := "readMarkdownFile", filePath := some filePath,
              reason := reason, action := "read" },
          message := some ("Permission Required: The AI wants to read " ++
            pathBasename filePath ++ " because: " ++ reason) }

/-- First invocation of `searchMarkdownFiles`
(`createSearchMarkdownFilesTool`). -/
def searchMarkdownFilesTool (rootDirectory : Option String)
    (pattern : Option String) (reason : String) : ToolResult :=
  match rootDirectory with
  | none =>
    { success := false, error := some "No root directory configured",
      requiresPermission := false }
  | some _ =>
    { success := false, requiresPermission := true,
      permissionRequest := some
        { toolName := "searchMarkdownFiles",
          pattern := some (pattern.getD "*"), reason := reason,
          action := "search" },
      message := some ("Permission Required: The AI wants to search for" ++
        " markdown files because: " ++ reason) }

/-- First invocation of `searchMarkdownContent`
(`createSearchMarkdownContentTool`). -/
def searchMarkdownContentTool (rootDirectory : Option String)
    (query : String) (filePattern : Option String) (reason : String) :
    ToolResult :=
  match rootDirectory with
  | none =>
    { success := false, error := some "No root directory configured",
      requiresPermission := false }
  | some _ =>
    { success := false, requiresPermission := true,
      permissionRequest := some
        { toolName := "searchMarkdownContent", query := some query,
          filePattern := some (filePattern.getD "*"), reason := reason,
          action := "search-content" },
      message := some ("Permission Required: The AI wants to search for " ++
        query ++ " in markdown files because: " ++ reason) }

/-- First invocation of `listFileTree` (`createListFileTreeTool`). -/
def listFileTreeTool (rootDirectory : Option String) (reason : String) :
    ToolResult :=
  match rootDirectory with
  | none =>
    { success := false, error := some "No root directory configured",
      requiresPermission := false }
  | some _ =>
    { success := false, requiresPermission := true,
      permissionRequest := some
        { toolName := "listFileTree", reason := reason,
          action := "list-files" },
      message := some ("Permission Required: The AI wants to view the" ++
        " file structure because: " ++ reason) }

structure ProposeResult where
  success : Bool
  type : String
  message : Option String := none
  error : Option String := none
  hint : Option String := none
  path : Option String := none
  proposedContent : Option String := none
  summary : Option String := none
  contentLength : Option Nat := none
deriving DecidableEq, Repr

/-- `proposeDocumentChange` (`createProposeDocumentChangeTool`): validates
that a path is provided and sandbox-valid, then returns the proposal
payload unchanged.  The filesystem is threaded through untouched — the
execute body performs no filesystem call. -/
def proposeDocumentChange (rootDirectory : Option String)
    (targetPath newContent summary : String) (fs : Fs) :
    ProposeResult × Fs :=
  if strTrim targetPath = "" then
    ({ success := false, type := "error",
       error := some ("ERROR: No file path provided. The AI must use the" ++
         " exact path from the context."),
       hint := some ("Use the path exactly as shown in the Current File" ++
         " Path context.") }, fs)
  else
    let sandboxOk := match rootDirectory with
      | some rd => validatePath targetPath rd
      | none => true
    if !sandboxOk then
      ({ success := false, type := "error",
         error := some ("Access denied: Path " ++ targetPath ++
           " is outside the allowed directory"),
         hint := some ("Ensure the exact path from the context is used," ++
           " not a modified version.") }, fs)
    else
      ({ success := true, type := "proposal",
         message := some ("Proposed changes ready for review: " ++ summary),
         path := some targetPath, proposedContent := some newContent,
         summary := some summary,
         contentLength := some newContent.length }, fs)

/-! ## Client store and the accept path (app store and DiffReviewPanel) -/

/-- `PendingChange` from `src/types/index.ts`. -/
structure PendingChange where
  filePath : String
  originalContent : String
  proposedContent : String
  summary : String
  timestamp : Nat
deriving DecidableEq, Repr

/-- The slice of the zustand app store touched by the accept path. -/
structure AppStore where
  editorContent : String
  isDirty : Bool
  editorVersion : Nat
  pendingChange : Option PendingChange
deriving DecidableEq, Repr

/-- The store mutations invoked by `handleAccept`, in source order. -/
inductive StoreAction where
  | setEditorContent (content : String)
  | setIsDirty (dirty : Bool)
  | incrementEditorVersion
  | clearPendingChange
deriving DecidableEq, Repr

def applyAction (store : AppStore) : StoreAction → AppStore
  | .setEditorContent c => { store with editorContent := c }
  | .setIsDirty b => { store with isDirty := b }
  | .incrementEditorVersion =>
    { store with editorVersion := store.editorVersion + 1 }
  | .clearPendingChange => { store with pendingChange := none }

/-- `handleAccept` (DiffReviewPanel): run the server accept action and, on
success, apply the four store mutations in source order.  The emitted
action list records that order. -/
def handleAccept (settings : AppSettings) (store : AppStore) (fs : Fs) :
    AppStore × Fs × List StoreAction × Option AcceptResult :=
  match store.pendingChange with
  | none => (store, fs, [], none)
  | some pc =>
    let (result, fs2) :=
      acceptProposedChange settings pc.filePath pc.proposedContent fs
    if result.success then
      let actions := [StoreAction.setEditorContent pc.proposedContent,
                      StoreAction.setIsDirty false,
                      StoreAction.incrementEditorVersion,
                      StoreAction.clearPendingChange]
      (actions.foldl applyAction store, fs2, actions, some result)
    else (store, fs2, [], some result)

end MdExplorer

/-! ## Concrete sample fixtures (used by the witnesses) -/

namespace MdExplorer

/-- Sample settings: sandbox root `/w`, `.log` files and `.git` folders
excluded. -/
def wSettings : AppSettings :=
  { rootDirectory := "/w", excludedExtensions := [".log"],
    excludedFolders := [".git"], theme := "system" }

/-- Sample filesystem under `/w`. -/
def wFs : Fs :=
  [("/w", .dir), ("/w/a.md", .file "# A"), ("/w/b.md", .file "bee"),
   ("/w/sub", .dir)]

/-- Sample store holding a PendingChange that proposes `# Hi` for
`/w/a.md`. -/
def wStore : AppStore :=
  { editorContent := "old", isDirty := true, editorVersion := 3,
    pendingChange := some
      { filePath := "/w/a.md", originalContent := "old",
        proposedContent := "# Hi", summary := "add heading",
        timestamp := 0 } }

end MdExplorer

namespace MdExplorer

/-! ## Path lemmas -/

theorem toList_append (a b : String) :
    (a ++ b).toList = a.toList ++ b.toList :=
  String.data_append a b

theorem mk_toList (s : String) : String.mk s.toList = s := rfl

theorem strStartsWith_iff {a b : String} :
    strStartsWith a b = true ↔ b.toList <+: a.toList :=
  List.isPrefixOf_iff_prefix

theorem strStartsWith_append (a b : String) :
    strStartsWith (a ++ b) a = true := by
  rw [strStartsWith_iff, toList_append]
  exact List.prefix_append _ _

theorem splitChars_ne_nil (l : List Char) : splitChars l ≠ [] := by
  cases l with
  | nil => simp [splitChars]
  | cons c cs =>
    simp only [splitChars]
    split
    · simp
    · cases h : splitChars cs <;> simp [consHead]

theorem consHead_append (c : Char) (l1 l2 : List (List Char))
    (h : l1 ≠ []) : consHead c (l1 ++ l2) = consHead c l1 ++ l2 := by
  cases l1 with
  | nil => exact absurd rfl h
  | cons s ss => simp [consHead]

theorem splitChars_append_slash (a b : List Char) :
    splitChars (a ++ '/' :: b) = splitChars a ++ splitChars b := by
  induction a with
  | nil => simp [splitChars]
  | cons c cs ih =>
    simp only [List.cons_append, splitChars]
    split
    · simpa using ih
    · show consHead c (splitChars (cs ++ '/' :: b)) = _
      rw [ih, consHead_append c _ _ (splitChars_ne_nil cs)]

theorem mem_splitChars_no_slash :
    ∀ (l : List Char), ∀ s ∈ splitChars l, '/' ∉ s := by
  intro l
  induction l with
  | nil =>
    intro s hs
    simp [splitChars] at hs
    simp [hs]
  | cons c cs ih =>
    intro s hs
    simp only [splitChars] at hs
    by_cases hc : c = '/'
    · simp [hc] at hs
      rcases hs with hs | hs
      · simp [hs]
      · exact ih s hs
    · simp [hc] at hs
      cases h : splitChars cs with
      | nil => exact absurd h (splitChars_ne_nil cs)
      | cons t ts =>
        rw [h] at hs
        simp [consHead] at hs
        rcases hs with hs | hs
        · subst hs
          intro hmem
          rcases List.mem_cons.mp hmem with h1 | h1
          · exact hc h1.symm
          · exact ih t (h ▸ List.mem_cons_self t ts) h1
        · exact ih s (h ▸ List.mem_cons_of_mem t hs)

theorem splitChars_of_no_slash {l : List Char} (h : '/' ∉ l) :
    splitChars l = [l] := by
  induction l with
  | nil => rfl
  | cons c cs ih =>
    have hc : ¬ c = '/' := fun hc => h (hc ▸ List.mem_cons_self c cs)
    have hcs : '/' ∉ cs := fun hm => h (List.mem_cons_of_mem c hm)
    simp [splitChars, hc, ih hcs, consHead]

end MdExplorer

namespace MdExplorer

theorem foldl_normStep_clean :
    ∀ (segs : List String) (st : List String),
      (∀ s ∈ segs, cleanSeg s) → List.foldl normStep st segs = st ++ segs := by
  intro segs
  induction segs with
  | nil => intro st _; simp
  | cons a rest ih =>
    intro st h
    have ha : cleanSeg a := h a (List.mem_cons_self a rest)
    obtain ⟨h1, h2, h3, _⟩ := ha
    simp only [List.foldl_cons]
    rw [show normStep st a = st ++ [a] by simp [normStep, h1, h2, h3]]
    rw [ih (st ++ [a]) (fun s hs => h s (List.mem_cons_of_mem a hs))]
    simp

theorem mem_foldl_normStep :
    ∀ (segs : List String) (st : List String) (x : String),
      x ∈ List.foldl normStep st segs →
      x ∈ st ∨ (x ∈ segs ∧ x ≠ "" ∧ x ≠ "." ∧ x ≠ "..") := by
  intro segs
  induction segs with
  | nil => intro st x hx; exact Or.inl hx
  | cons a rest ih =>
    intro st x hx
    simp only [List.foldl_cons] at hx
    rcases ih (normStep st a) x hx with h | h
    · by_cases h1 : a = "" ∨ a = "."
      · rw [show normStep st a = st by simp [normStep, h1]] at h
        exact Or.inl h
      · by_cases h2 : a = ".."
        · rw [show normStep st a = st.dropLast by simp [normStep, h1, h2]] at h
          exact Or.inl (List.dropLast_subset st h)
        · rw [show normStep st a = st ++ [a] by simp [normStep, h1, h2]] at h
          rcases List.mem_append.mp h with h3 | h3
          · exact Or.inl h3
          · have hxa : x = a := List.mem_singleton.mp h3
            subst hxa
            push_neg at h1
            exact Or.inr ⟨List.mem_cons_self x rest, h1.1, h1.2, h2⟩
    · exact Or.inr ⟨List.mem_cons_of_mem a h.1, h.2⟩

theorem segsOf_clean {p : String} : ∀ s ∈ segsOf p, cleanSeg s := by
  intro s hs
  unfold segsOf at hs
  rcases mem_foldl_normStep _ [] s hs with h | h
  · simp at h
  · obtain ⟨hmem, h1, h2, h3⟩ := h
    refine ⟨h1, h2, h3, ?_⟩
    rcases List.mem_map.mp hmem with ⟨cs, hcs, rfl⟩
    exact mem_splitChars_no_slash _ cs hcs

theorem joinSegs_append_singleton :
    ∀ (l : List String) (x : String),
      joinSegs (l ++ [x]) = if l.isEmpty then x else joinSegs l ++ "/" ++ x := by
  intro l
  induction l with
  | nil => intro x; simp [joinSegs]
  | cons s rest ih =>
    intro x
    cases rest with
    | nil => simp [joinSegs]
    | cons t ts =>
      have h1 : joinSegs (s :: (t :: ts) ++ [x]) =
          s ++ "/" ++ joinSegs ((t :: ts) ++ [x]) := by
        simp [joinSegs]
      rw [List.cons_append] at h1 ⊢
      rw [h1, ih x]
      simp [joinSegs, String.append_assoc]

theorem segsOf_append_seg {x seg : String} (h : cleanSeg seg) :
    segsOf (x ++ "/" ++ seg) = segsOf x ++ [seg] := by
  obtain ⟨h1, h2, h3, h4⟩ := h
  unfold segsOf
  rw [toList_append, toList_append]
  rw [show ("/" : String).toList = ['/'] from rfl]
  rw [List.append_assoc, List.singleton_append, splitChars_append_slash,
    splitChars_of_no_slash h4, List.map_append]
  rw [List.foldl_append]
  simp only [List.map_cons, List.map_nil, List.foldl_cons, List.foldl_nil]
  rw [mk_toList]
  simp [normStep, h1, h2, h3]

theorem segsOf_root : segsOf "/" = [] := rfl

theorem segsOf_slash_seg {x : String} (hx : cleanSeg x) :
    segsOf ("/" ++ x) = [x] := by
  obtain ⟨h1, h2, h3, h4⟩ := hx
  unfold segsOf
  rw [toList_append, show ("/" : String).toList = ['/'] from rfl,
    List.singleton_append]
  rw [show splitChars ('/' :: x.toList) = [] :: splitChars x.toList by
    simp [splitChars]]
  rw [splitChars_of_no_slash h4]
  simp only [List.map_cons, List.map_nil, List.foldl_cons, List.foldl_nil,
    mk_toList]
  rw [show normStep [] (String.mk []) = [] by simp [normStep]]
  simp [normStep, h1, h2, h3]

theorem segsOf_slash_join :
    ∀ (segs : List String), (∀ s ∈ segs, cleanSeg s) →
      segsOf ("/" ++ joinSegs segs) = segs := by
  intro segs
  induction segs using List.reverseRecOn with
  | nil => intro _; rfl
  | append_singleton l x ih =>
    intro h
    have hx : cleanSeg x := h x (by simp)
    have hl : ∀ s ∈ l, cleanSeg s := fun s hs => h s (by simp [hs])
    cases l with
    | nil =>
      show segsOf ("/" ++ joinSegs [x]) = [x]
      rw [show joinSegs [x] = x from rfl]
      exact segsOf_slash_seg hx
    | cons t ts =>
      rw [joinSegs_append_singleton, if_neg (by simp)]
      rw [show ("/" ++ (joinSegs (t :: ts) ++ "/" ++ x) : String) =
          ("/" ++ joinSegs (t :: ts)) ++ "/" ++ x by
        apply String.ext
        simp [String.data_append]]
      rw [segsOf_append_seg hx, ih hl]

theorem segsOf_resolveAbs (p : String) :
    segsOf (resolveAbs p) = segsOf p := by
  unfold resolveAbs
  exact segsOf_slash_join (segsOf p) (segsOf_clean)

theorem resolveAbs_idem (p : String) :
    resolveAbs (resolveAbs p) = resolveAbs p := by
  unfold resolveAbs
  rw [show segsOf ("/" ++ joinSegs (segsOf p)) = segsOf p from
    segsOf_slash_join (segsOf p) segsOf_clean]

end MdExplorer

namespace MdExplorer

theorem resolveAbs_congr_segs {x y : String} (h : segsOf x = segsOf y) :
    resolveAbs x = resolveAbs y := by
  unfold resolveAbs
  rw [h]

theorem joinSegs_eq_empty_iff {segs : List String}
    (h : ∀ s ∈ segs, cleanSeg s) : joinSegs segs = "" ↔ segs = [] := by
  constructor
  · intro he
    cases segs with
    | nil => rfl
    | cons t ts =>
      exfalso
      have ht : cleanSeg t := h t (List.mem_cons_self t ts)
      cases ts with
      | nil => exact ht.1 he
      | cons u us =>
        have : (joinSegs (t :: u :: us)).length = 0 := by rw [he]; rfl
        rw [show joinSegs (t :: u :: us) = t ++ "/" ++ joinSegs (u :: us)
          from rfl] at this
        simp [String.length_append] at this
        exact absurd this.1.2 (by decide)
  · intro he
    subst he
    rfl

theorem resolveAbs_eq_root_iff {p : String} :
    resolveAbs p = "/" ↔ segsOf p = [] := by
  constructor
  · intro h
    unfold resolveAbs at h
    have h2 : ("/" ++ joinSegs (segsOf p)).toList = ("/" : String).toList := by
      rw [h]
    rw [toList_append, show ("/" : String).toList = ['/'] from rfl] at h2
    have h3 : (joinSegs (segsOf p)).toList = [] := by
      simpa using h2
    have h4 : joinSegs (segsOf p) = "" := by
      apply String.ext
      simpa using h3
    exact (joinSegs_eq_empty_iff segsOf_clean).mp h4
  · intro h
    unfold resolveAbs
    rw [h]
    rfl

theorem joinSegs_cons_toList (t : String) (ts : List String) :
    ∃ r, (joinSegs (t :: ts)).toList = t.toList ++ r := by
  cases ts with
  | nil => exact ⟨[], by simp [joinSegs]⟩
  | cons u us =>
    refine ⟨['/'] ++ (joinSegs (u :: us)).toList, ?_⟩
    rw [show joinSegs (t :: u :: us) = t ++ "/" ++ joinSegs (u :: us) from rfl]
    rw [toList_append, toList_append]
    simp

theorem resolveAbs_not_startsWith_doubleslash (p : String) :
    ¬ strStartsWith (resolveAbs p) ("/" ++ "/") = true := by
  intro h
  rw [strStartsWith_iff] at h
  rw [show (("/" : String) ++ "/").toList = ['/', '/'] from rfl] at h
  unfold resolveAbs at h
  rw [toList_append, show ("/" : String).toList = ['/'] from rfl] at h
  cases hsegs : segsOf p with
  | nil =>
    rw [hsegs] at h
    simp [joinSegs] at h
  | cons t ts =>
    rw [hsegs] at h
    obtain ⟨r, hr⟩ := joinSegs_cons_toList t ts
    rw [hr] at h
    have ht : cleanSeg t := by
      have := segsOf_clean (p := p)
      rw [hsegs] at this
      exact this t (List.mem_cons_self t ts)
    obtain ⟨h1, _, _, h4⟩ := ht
    cases hc : t.toList with
    | nil =>
      exact h1 (by apply String.ext; simpa using hc)
    | cons c cs =>
      rw [hc] at h
      obtain ⟨u, hu⟩ := h
      simp at hu
      exact h4 (by rw [hc, ← hu.1]; exact List.mem_cons_self _ _)

theorem segsOf_append_slash_only (x : String) :
    segsOf (x ++ "/") = segsOf x := by
  unfold segsOf
  rw [toList_append, show ("/" : String).toList = ['/'] from rfl]
  rw [show x.toList ++ ['/'] = x.toList ++ '/' :: [] from rfl,
    splitChars_append_slash]
  rw [List.map_append, List.foldl_append]
  rfl

theorem segsOf_pathJoin {a b : String} (hb : cleanSeg b) :
    segsOf (pathJoin a b) = segsOf a ++ [b] := by
  unfold pathJoin
  rw [segsOf_resolveAbs, segsOf_append_seg hb]

theorem pathResolve_pathJoin (a b : String) :
    pathResolve (pathJoin a b) = pathJoin a b := by
  unfold pathResolve pathJoin
  exact resolveAbs_idem _

theorem pathJoin_empty_right (a : String) : pathJoin a "" = resolveAbs a := by
  unfold pathJoin
  apply resolveAbs_congr_segs
  rw [show (a ++ "/" ++ "" : String) = a ++ "/" by
    apply String.ext; simp [String.data_append]]
  exact segsOf_append_slash_only a

end MdExplorer

namespace MdExplorer

theorem resolveAbs_ne_empty (p : String) : resolveAbs p ≠ "" := by
  intro h
  have h2 : (resolveAbs p).toList = [] := by rw [h]; rfl
  unfold resolveAbs at h2
  rw [toList_append] at h2
  simp at h2

theorem pathJoin_toList {T nm : String} (hnm : cleanSeg nm)
    (hT : segsOf T ≠ []) :
    (pathJoin T nm).toList = (resolveAbs T).toList ++ '/' :: nm.toList := by
  unfold pathJoin resolveAbs
  rw [segsOf_append_seg hnm, joinSegs_append_singleton]
  rw [if_neg (by simpa using hT)]
  rw [toList_append, toList_append, toList_append, toList_append]
  simp

theorem pathJoin_desc_startsWith {T s nm : String} (hnm : cleanSeg nm)
    (hsne : s ≠ "") (hsroot : s ≠ "/")
    (hdesc : resolveAbs T = s ∨ strStartsWith (resolveAbs T) (s ++ "/") = true) :
    strStartsWith (pathJoin T nm) (s ++ "/") = true := by
  have hT : segsOf T ≠ [] := by
    intro hnil
    have htroot : resolveAbs T = "/" := resolveAbs_eq_root_iff.mpr hnil
    rcases hdesc with h | h
    · exact hsroot (htroot ▸ h.symm)
    · rw [htroot] at h
      rw [strStartsWith_iff] at h
      have hlen := h.length_le
      rw [toList_append] at hlen
      simp [show (("/" : String)).toList = ['/'] from rfl] at hlen
      have h0 : s.data = [] := List.length_eq_zero.mp hlen
      exact hsne (String.ext h0)
  rw [strStartsWith_iff, pathJoin_toList hnm hT]
  rcases hdesc with h | h
  · rw [h, toList_append, show ("/" : String).toList = ['/'] from rfl]
    exact List.prefix_append_right_inj s.toList |>.mpr ⟨nm.toList, rfl⟩
  · rw [strStartsWith_iff] at h
    exact h.trans (List.prefix_append _ _)

end MdExplorer

namespace MdExplorer

/-- C7: moving a directory to itself or into its own descendant fails and
leaves the filesystem unchanged. -/
theorem moveItem_into_descendant_fails (settings : AppSettings)
    (S T : String) (fs : Fs)
    (hdesc : pathResolve T = pathResolve S ∨
      strStartsWith (pathResolve T) (pathResolve S ++ "/") = true) :
    (moveItem settings S T fs).1.success = false ∧
      (moveItem settings S T fs).2 = fs := by
  by_cases hsrc :
      strStartsWith (pathResolve S) (pathResolve settings.rootDirectory) = true
  · rcases List.eq_nil_or_concat (segsOf S) with hS | ⟨l, nm, hS⟩
    · -- the source resolves to the filesystem root
      have hsroot : pathResolve S = "/" := resolveAbs_eq_root_iff.mpr hS
      have hname : pathBasename (pathResolve S) = "" := by
        unfold pathBasename pathResolve
        rw [segsOf_resolveAbs, hS]
        rfl
      have ht : pathResolve T = "/" := by
        rcases hdesc with h | h
        · rw [h, hsroot]
        · exact absurd (hsroot ▸ h) (resolveAbs_not_startsWith_doubleslash T)
      have hdest : pathResolve (pathJoin T "") = "/" := by
        show resolveAbs (pathJoin T "") = "/"
        rw [pathJoin_empty_right, resolveAbs_idem]
        exact ht
      by_cases hdv : strStartsWith (pathResolve (pathJoin T ""))
          (pathResolve settings.rootDirectory) = true
      · have hself : strStartsWith (pathResolve (pathJoin T ""))
            (pathResolve S ++ "/") = false := by
          rw [hdest, hsroot]
          decide
        have hex : fsExists fs (pathResolve (pathJoin T "")) = true := by
          rw [hdest]
          simp [fsExists]
          exact Or.inr (by decide)
        simp [moveItem, validatePathSecurity, hsrc, hname, hdv, hself, hex]
      · simp [moveItem, validatePathSecurity, hsrc, hname, hdv]
    · -- the source has a last segment, which becomes the moved item's name
      have hnm : cleanSeg nm := by
        have := segsOf_clean (p := S)
        rw [hS] at this
        exact this nm (by simp)
      have hname : pathBasename (pathResolve S) = nm := by
        unfold pathBasename pathResolve
        rw [segsOf_resolveAbs, hS]
        simp
      have hsne : pathResolve S ≠ "" := resolveAbs_ne_empty S
      have hsroot : pathResolve S ≠ "/" := by
        intro h
        rw [show pathResolve S = resolveAbs S from rfl,
          resolveAbs_eq_root_iff] at h
        simp [h] at hS
      have hself : strStartsWith (pathResolve (pathJoin T nm))
          (pathResolve S ++ "/") = true := by
        rw [pathResolve_pathJoin]
        exact pathJoin_desc_startsWith hnm hsne hsroot hdesc
      by_cases hdv : strStartsWith (pathResolve (pathJoin T nm))
          (pathResolve settings.rootDirectory) = true
      · simp [moveItem, validatePathSecurity, hsrc, hname, hdv, hself]
      · simp [moveItem, validatePathSecurity, hsrc, hname, hdv]
  · simp [moveItem, validatePathSecurity, hsrc]

end MdExplorer

namespace MdExplorer

/-- C1: the sandbox validation used by file operations and tool execution
is a plain resolved-path prefix check, so with root `/docs` the sibling
path `/docs-other/x` is accepted, even though it is neither `/docs` nor a
boundary-aware descendant of it.  The claim (and the spec's P1) demand the
boundary-aware behaviour, which the spec's design notes call the intended
fix; the code's prefix comparison is the slip. -/
theorem validatePath_accepts_prefix_sibling :
    validatePath "/docs-other/x" "/docs" = true ∧
    (validatePathSecurity
      { rootDirectory := "/docs", excludedExtensions := [],
        excludedFolders := [], theme := "system" } "/docs-other/x").valid
      = true ∧
    specBoundaryDescendant "/docs-other/x" "/docs" = false := by
  refine ⟨by decide, by decide, by decide⟩

/-- Witness for `moveItem_into_descendant_fails` at Scenario D:
`move("/w/sub", "/w/sub/inner")` fails and the filesystem is unchanged. -/
theorem moveItem_into_descendant_fails_witness :
    (strStartsWith (pathResolve "/w/sub/inner")
      (pathResolve "/w/sub" ++ "/") = true) ∧
    (moveItem wSettings "/w/sub" "/w/sub/inner" wFs).1.success = false ∧
    (moveItem wSettings "/w/sub" "/w/sub/inner" wFs).2 = wFs :=
  ⟨by decide,
   moveItem_into_descendant_fails wSettings "/w/sub" "/w/sub/inner" wFs
     (Or.inr (by decide))⟩

end MdExplorer

namespace MdExplorer

/-- C5: a conversation request whose model identifier is not in the
allow-list is rejected with HTTP 400 before any provider client is built;
it is never mapped to a default provider or model. -/
theorem chatRoute_rejects_unknown_model (m : String)
    (hm : isValidModelId m = false) :
    chatRouteSelectModel (some m) = .badRequest 400 "Invalid model" := by
  simp [chatRouteSelectModel, hm]

/-- Witness for `chatRoute_rejects_unknown_model` at a concrete unknown
identifier. -/
theorem chatRoute_rejects_unknown_model_witness :
    isValidModelId "gpt-imaginary" = false ∧
    chatRouteSelectModel (some "gpt-imaginary") =
      .badRequest 400 "Invalid model" :=
  ⟨by decide, chatRoute_rejects_unknown_model "gpt-imaginary" (by decide)⟩

/-- C3: `proposeDocumentChange` on a provided (non-blank) and
sandbox-valid path touches no filesystem state and returns the proposal
payload unchanged; an empty path yields an error result. -/
theorem proposeDocumentChange_pure (root : Option String)
    (targetPath newContent summary : String) (fs : Fs)
    (hpath : strTrim targetPath ≠ "")
    (hsand : ∀ rd, root = some rd → validatePath targetPath rd = true) :
    (proposeDocumentChange root targetPath newContent summary fs).2 = fs ∧
    (proposeDocumentChange root targetPath newContent summary fs).1 =
      { success := true, type := "proposal",
        message := some ("Proposed changes ready for review: " ++ summary),
        path := some targetPath, proposedContent := some newContent,
        summary := some summary,
        contentLength := some newContent.length } ∧
    (proposeDocumentChange root "" newContent summary fs).1.success = false ∧
    (proposeDocumentChange root "" newContent summary fs).1.type = "error" ∧
    (proposeDocumentChange root "" newContent summary fs).2 = fs := by
  have hempty : strTrim "" = "" := rfl
  cases root with
  | none =>
    refine ⟨?_, ?_, ?_, ?_, ?_⟩ <;>
      simp [proposeDocumentChange, hpath, hempty]
  | some rd =>
    have hv := hsand rd rfl
    refine ⟨?_, ?_, ?_, ?_, ?_⟩ <;>
      simp [proposeDocumentChange, hpath, hempty, hv]

/-- Witness for `proposeDocumentChange_pure` at Scenario B's proposal. -/
theorem proposeDocumentChange_pure_witness :
    (proposeDocumentChange (some "/w") "/w/a.md" "# Hi" "add heading" wFs).2
      = wFs ∧
    (proposeDocumentChange (some "/w") "/w/a.md" "# Hi" "add heading"
      wFs).1.success = true :=
  ⟨(proposeDocumentChange_pure (some "/w") "/w/a.md" "# Hi" "add heading" wFs
      (by decide) (fun rd h => by cases h; decide)).1,
   by rw [(proposeDocumentChange_pure (some "/w") "/w/a.md" "# Hi"
      "add heading" wFs (by decide) (fun rd h => by cases h; decide)).2.1]⟩

end MdExplorer

namespace MdExplorer

/-- C4: accepting a PendingChange with proposed content `X` on a
sandbox-valid path persists `X` (reading the file back yields `X`), reports
`bytesWritten` equal to the persisted UTF-8 size of `X`, and updates the
store by — in this order — setting the editor content, clearing the dirty
flag, bumping the editor version, and clearing the PendingChange. -/
theorem handleAccept_round_trip (settings : AppSettings) (store : AppStore)
    (fs : Fs) (pc : PendingChange)
    (hpc : store.pendingChange = some pc)
    (hvalid : validatePath pc.filePath settings.rootDirectory = true) :
    readFileAction settings pc.filePath (handleAccept settings store fs).2.1 =
      .ok pc.proposedContent ∧
    (handleAccept settings store fs).1 =
      { editorContent := pc.proposedContent, isDirty := false,
        editorVersion := store.editorVersion + 1, pendingChange := none } ∧
    (handleAccept settings store fs).2.2.2 =
      some { success := true,
             bytesWritten := some pc.proposedContent.utf8ByteSize } ∧
    (handleAccept settings store fs).2.2.1 =
      [StoreAction.setEditorContent pc.proposedContent,
       StoreAction.setIsDirty false,
       StoreAction.incrementEditorVersion,
       StoreAction.clearPendingChange] := by
  have hv : strStartsWith (pathResolve pc.filePath)
      (pathResolve settings.rootDirectory) = true := hvalid
  refine ⟨?_, ?_, ?_, ?_⟩ <;>
    simp [handleAccept, hpc, acceptProposedChange, hv, readFileAction,
      fsReadFile, fsStat, fsLookup, fsWrite, entrySize, applyAction,
      List.find?]

end MdExplorer

namespace MdExplorer

/-- Witness for `handleAccept_round_trip` at Scenario B: accept
`# Hi` for `/w/a.md` and read it back. -/
theorem handleAccept_round_trip_witness :
    readFileAction wSettings "/w/a.md"
      (handleAccept wSettings wStore wFs).2.1 = .ok "# Hi" ∧
    (handleAccept wSettings wStore wFs).1.isDirty = false := by
  have h := handleAccept_round_trip wSettings wStore wFs
    { filePath := "/w/a.md", originalContent := "old",
      proposedContent := "# Hi", summary := "add heading", timestamp := 0 }
    rfl (by decide)
  exact ⟨h.1, by rw [h.2.1]⟩

end MdExplorer

namespace MdExplorer

/-- C2 counterexample: the first invocation of the gated tool
`readMarkdownFile` on a sandbox-valid path to an existing non-markdown
file returns `requiresPermission := false` (with an error), so a gated
tool's first call does not always return `requiresPermission := true`
regardless of parameters. -/
theorem readMarkdownFileTool_precondition_failure_not_gated :
    (readMarkdownFileTool (some "/w")
      (("/w/notes.txt", FsEntry.file "text") :: wFs)
      "/w/notes.txt" "check the notes").requiresPermission = false ∧
    (readMarkdownFileTool (some "/w")
      (("/w/notes.txt", FsEntry.file "text") :: wFs)
      "/w/notes.txt" "check the notes").error =
      some "File is not a markdown file" := by
  refine ⟨by decide, by decide⟩

/-- C2 (amended): a gated tool's first invocation never performs the real
work (its result always carries `success := false`, and the tool bodies
only read the filesystem); it returns `requiresPermission := true`
whenever its read-only precondition checks pass (for `readMarkdownFile`,
the sandbox check, the existing-regular-file check and the `.md` check;
for the search and list tools, a configured root directory), and
otherwise returns an error result with `requiresPermission := false`. -/
theorem gated_tools_first_call (root : Option String) (fs : Fs)
    (filePath reason query : String) (pattern filePattern : Option String) :
    (readMarkdownFileTool root fs filePath reason).success = false ∧
    (searchMarkdownFilesTool root pattern reason).success = false ∧
    (searchMarkdownContentTool root query filePattern reason).success
      = false ∧
    (listFileTreeTool root reason).success = false ∧
    ((match root with
      | some rd => validatePath filePath rd
      | none => true) = true →
      (∃ c, fsStat fs filePath = .ok (FsEntry.file c)) →
      strEndsWith (lowerStr filePath) ".md" = true →
      (readMarkdownFileTool root fs filePath reason).requiresPermission
        = true) ∧
    (root.isSome →
      (searchMarkdownFilesTool root pattern reason).requiresPermission
        = true) ∧
    (root.isSome →
      (searchMarkdownContentTool root query filePattern
        reason).requiresPermission = true) ∧
    (root.isSome →
      (listFileTreeTool root reason).requiresPermission = true) ∧
    (¬ ((match root with
      | some rd => validatePath filePath rd
      | none => true) = true ∧
      (∃ c, fsStat fs filePath = .ok (FsEntry.file c)) ∧
      strEndsWith (lowerStr filePath) ".md" = true) →
      (readMarkdownFileTool root fs filePath reason).requiresPermission
        = false ∧
      ((readMarkdownFileTool root fs filePath reason).error).isSome
        = true) ∧
    (root = none →
      (searchMarkdownFilesTool root pattern reason).requiresPermission
        = false ∧
      ((searchMarkdownFilesTool root pattern reason).error).isSome
        = true) ∧
    (root = none →
      (searchMarkdownContentTool root query filePattern
        reason).requiresPermission = false ∧
      ((searchMarkdownContentTool root query filePattern
        reason).error).isSome = true) ∧
    (root = none →
      (listFileTreeTool root reason).requiresPermission = false ∧
      ((listFileTreeTool root reason).error).isSome = true) := by
  refine ⟨?_, ?_, ?_, ?_, ?_, ?_, ?_, ?_, ?_, ?_, ?_, ?_⟩
  · unfold readMarkdownFileTool
    dsimp only
    repeat' split
    all_goals rfl
  · unfold searchMarkdownFilesTool
    repeat' split <;> rfl
  · unfold searchMarkdownContentTool
    repeat' split <;> rfl
  · unfold listFileTreeTool
    repeat' split <;> rfl
  · intro hroot hfile hmd
    obtain ⟨c, hc⟩ := hfile
    simp [readMarkdownFileTool, hroot, hc, hmd]
  · intro hs
    cases root with
    | none => simp at hs
    | some rd => simp [searchMarkdownFilesTool]
  · intro hs
    cases root with
    | none => simp at hs
    | some rd => simp [searchMarkdownContentTool]
  · intro hs
    cases root with
    | none => simp at hs
    | some rd => simp [listFileTreeTool]
  · intro hnpre
    cases hsand : (match root with
        | some rd => validatePath filePath rd
        | none => true) with
    | false => constructor <;> simp [readMarkdownFileTool, hsand]
    | true =>
      cases hstat : fsStat fs filePath with
      | error e =>
        constructor <;> simp [readMarkdownFileTool, hsand, hstat]
      | ok entry =>
        cases entry with
        | dir =>
          constructor <;> simp [readMarkdownFileTool, hsand, hstat]
        | file c =>
          by_cases hmd : strEndsWith (lowerStr filePath) ".md" = true
          · exact absurd ⟨hsand, ⟨c, hstat⟩, hmd⟩ hnpre
          · constructor <;>
              simp [readMarkdownFileTool, hsand, hstat, hmd]
  · intro hnone
    subst hnone
    constructor <;> simp [searchMarkdownFilesTool]
  · intro hnone
    subst hnone
    constructor <;> simp [searchMarkdownContentTool]
  · intro hnone
    subst hnone
    constructor <;> simp [listFileTreeTool]

/-- Witness for `gated_tools_first_call`: with the sample root configured
and an existing markdown file all four gated tools surface a permission
request, and each failure direction is exercised too — `readMarkdownFile`
on an existing non-markdown file, and the three search/list tools with no
configured root. -/
theorem gated_tools_first_call_witness :
    (readMarkdownFileTool (some "/w") wFs "/w/a.md"
      "check content").requiresPermission = true ∧
    (searchMarkdownFilesTool (some "/w") none "find").requiresPermission
      = true ∧
    (searchMarkdownContentTool (some "/w") "hello" none
      "scan").requiresPermission = true ∧
    (listFileTreeTool (some "/w") "inspect").requiresPermission = true ∧
    (readMarkdownFileTool (some "/w")
      (("/w/notes.txt", FsEntry.file "text") :: wFs) "/w/notes.txt"
      "check content").requiresPermission = false ∧
    ((readMarkdownFileTool (some "/w")
      (("/w/notes.txt", FsEntry.file "text") :: wFs) "/w/notes.txt"
      "check content").error).isSome = true ∧
    (searchMarkdownFilesTool none none "find").requiresPermission
      = false ∧
    ((searchMarkdownFilesTool none none "find").error).isSome = true ∧
    (searchMarkdownContentTool none "hello" none
      "scan").requiresPermission = false ∧
    ((searchMarkdownContentTool none "hello" none "scan").error).isSome
      = true ∧
    (listFileTreeTool none "inspect").requiresPermission = false ∧
    ((listFileTreeTool none "inspect").error).isSome = true := by
  have hfail := (gated_tools_first_call (some "/w")
    (("/w/notes.txt", FsEntry.file "text") :: wFs) "/w/notes.txt"
    "check content" "hello" none none).2.2.2.2.2.2.2.2.1
    (fun hp => absurd hp.2.2 (by decide))
  have hnone1 := (gated_tools_first_call none [] "x" "find" "hello"
    none none).2.2.2.2.2.2.2.2.2.1 rfl
  have hnone2 := (gated_tools_first_call none [] "x" "scan" "hello"
    none none).2.2.2.2.2.2.2.2.2.2.1 rfl
  have hnone3 := (gated_tools_first_call none [] "x" "inspect" "hello"
    none none).2.2.2.2.2.2.2.2.2.2.2 rfl
  refine ⟨(gated_tools_first_call (some "/w") wFs "/w/a.md" "check content"
      "hello" none none).2.2.2.2.1 (by decide) ⟨"# A", by decide⟩
      (by decide), ?_, ?_, ?_,
    hfail.1, hfail.2, hnone1.1, hnone1.2, hnone2.1, hnone2.2,
    hnone3.1, hnone3.2⟩
  · exact (gated_tools_first_call (some "/w") wFs "/w/a.md" "find" "hello"
      none none).2.2.2.2.2.1 (by decide)
  · exact (gated_tools_first_call (some "/w") wFs "/w/a.md" "scan" "hello"
      none none).2.2.2.2.2.2.1 (by decide)
  · exact (gated_tools_first_call (some "/w") wFs "/w/a.md" "inspect"
      "hello" none none).2.2.2.2.2.2.2.1 (by decide)

namespace MdExplorer

/-- C6 counterexample: `readFile` (file-actions.ts) has no try/catch, so a
sandbox-violating path makes it raise an exception (modelled as
`Except.error`) instead of returning a `{success, error}` result — here on
root `/w` and target `/etc/passwd`. -/
theorem readFileAction_raises_on_sandbox_violation :
    readFileAction
      { rootDirectory := "/w", excludedExtensions := [".log"],
        excludedFolders := [".git"], theme := "system" }
      "/etc/passwd" [] =
      Except.error "Access denied: File is outside the allowed directory" :=
  by decide

/-- C6 (amended): `writeFile`, `create`, `rename`, `move`, `delete` and
`duplicate` always return a structured result — every failure carries an
error message instead of an exception — while `readFile` raises
(`Except.error`) on a sandbox-violating or missing path. -/
theorem fileStore_results_structured (settings : AppSettings) (fs : Fs)
    (p q name content : String) (useTrash : Bool) :
    ((writeFileAction settings p content fs).1.success = true ∨
      ((writeFileAction settings p content fs).1.error).isSome = true) ∧
    ((createFile settings p name content fs).1.success = true ∨
      ((createFile settings p name content fs).1.error).isSome = true) ∧
    ((renameItem settings p name fs).1.success = true ∨
      ((renameItem settings p name fs).1.error).isSome = true) ∧
    ((moveItem settings p q fs).1.success = true ∨
      ((moveItem settings p q fs).1.error).isSome = true) ∧
    ((deleteItem settings p useTrash fs).1.success = true ∨
      ((deleteItem settings p useTrash fs).1.error).isSome = true) ∧
    ((duplicateFile settings p fs).1.success = true ∨
      ((duplicateFile settings p fs).1.error).isSome = true) ∧
    (strStartsWith (pathResolve p) (pathResolve settings.rootDirectory)
        = false →
      readFileAction settings p fs =
        Except.error "Access denied: File is outside the allowed directory") ∧
    (fsLookup fs p = none → pathResolve p ≠ "/" →
      ∃ e, readFileAction settings p fs = Except.error e) := by
  refine ⟨?_, ?_, ?_, ?_, ?_, ?_, ?_, ?_⟩
  · unfold writeFileAction
    dsimp only
    repeat' split
    all_goals simp
  · unfold createFile
    dsimp only
    repeat' split
    all_goals simp
  · unfold renameItem
    dsimp only
    repeat' split
    all_goals simp
  · unfold moveItem
    dsimp only
    repeat' split
    all_goals simp
  · unfold deleteItem
    dsimp only
    repeat' split
    all_goals simp
  · unfold duplicateFile
    dsimp only
    repeat' split
    all_goals simp
  · intro hv
    simp [readFileAction, hv]
  · intro hmiss hroot
    unfold readFileAction
    dsimp only
    split
    · exact ⟨_, rfl⟩
    · refine ⟨"ENOENT: no such file or directory", ?_⟩
      have hidem : pathResolve (pathResolve p) = pathResolve p :=
        resolveAbs_idem p
      have hl : fsLookup fs (pathResolve p) = none := by
        unfold fsLookup at hmiss ⊢
        rw [hidem]
        exact hmiss
      have hq : pathResolve (pathResolve p) ≠ "/" := by
        rw [hidem]
        exact hroot
      simp [fsReadFile, fsStat, hl, hq]

/-- Witness for `fileStore_results_structured` on the sample tree, with a
sandbox-violating and missing read target. -/
theorem fileStore_results_structured_witness :
    ((renameItem wSettings "/etc/hosts" "b.md" wFs).1.success = true ∨
      ((renameItem wSettings "/etc/hosts" "b.md" wFs).1.error).isSome
        = true) ∧
    readFileAction wSettings "/etc/hosts" wFs =
      Except.error "Access denied: File is outside the allowed directory" ∧
    (∃ e, readFileAction wSettings "/w/nope.md" wFs = Except.error e) := by
  have h := fileStore_results_structured wSettings wFs "/etc/hosts" "/w"
    "b.md" "c" true
  have h2 := fileStore_results_structured wSettings wFs "/w/nope.md" "/w"
    "b.md" "c" true
  exact ⟨h.2.2.1, h.2.2.2.2.2.2.1 (by decide),
    h2.2.2.2.2.2.2.2 (by decide) (by decide)⟩

end MdExplorer

namespace MdExplorer

/-- C8: when the computed target path of `create`, `rename` or `move`
already exists, the operation fails and performs no filesystem change;
when its sandbox validations pass (and, for `move`, the target is not
inside the source), the reported error is the already-exists collision. -/
theorem create_rename_move_no_overwrite (settings : AppSettings) (fs : Fs)
    (parentPath fileName content oldPath newName
      sourcePath targetFolderPath : String) :
    (fsExists fs (validatePathSecurity settings
        (pathJoin (if parentPath = "" then settings.rootDirectory
          else parentPath) fileName)).resolvedPath = true →
      (createFile settings parentPath fileName content fs).1.success
          = false ∧
      (createFile settings parentPath fileName content fs).2 = fs ∧
      ((validatePathSecurity settings
          (pathJoin (if parentPath = "" then settings.rootDirectory
            else parentPath) fileName)).valid = true →
        (createFile settings parentPath fileName content fs).1.error =
          some "A file with this name already exists")) ∧
    (fsExists fs (validatePathSecurity settings
        (pathJoin (pathDirname
          (validatePathSecurity settings oldPath).resolvedPath)
          newName)).resolvedPath = true →
      (renameItem settings oldPath newName fs).1.success = false ∧
      (renameItem settings oldPath newName fs).2 = fs ∧
      ((validatePathSecurity settings oldPath).valid = true →
        (validatePathSecurity settings
          (pathJoin (pathDirname
            (validatePathSecurity settings oldPath).resolvedPath)
            newName)).valid = true →
        (renameItem settings oldPath newName fs).1.error =
          some "An item with this name already exists")) ∧
    (fsExists fs (validatePathSecurity settings
        (pathJoin targetFolderPath (pathBasename
          (validatePathSecurity settings
            sourcePath).resolvedPath))).resolvedPath = true →
      (moveItem settings sourcePath targetFolderPath fs).1.success = false ∧
      (moveItem settings sourcePath targetFolderPath fs).2 = fs ∧
      ((validatePathSecurity settings sourcePath).valid = true →
        (validatePathSecurity settings
          (pathJoin targetFolderPath (pathBasename
            (validatePathSecurity settings
              sourcePath).resolvedPath))).valid = true →
        strStartsWith (validatePathSecurity settings
            (pathJoin targetFolderPath (pathBasename
              (validatePathSecurity settings
                sourcePath).resolvedPath))).resolvedPath
          ((validatePathSecurity settings sourcePath).resolvedPath ++ "/")
          = false →
        (moveItem settings sourcePath targetFolderPath fs).1.error =
          some "An item with this name already exists at the destination")) :=
  by
  refine ⟨?_, ?_, ?_⟩
  · intro hex
    by_cases hv : (validatePathSecurity settings
        (pathJoin (if parentPath = "" then settings.rootDirectory
          else parentPath) fileName)).valid = true
    · refine ⟨?_, ?_, fun _ => ?_⟩ <;> simp [createFile, hv, hex]
    · refine ⟨?_, ?_, fun h => absurd h hv⟩ <;> simp [createFile, hv]
  · intro hex
    by_cases hold : (validatePathSecurity settings oldPath).valid = true
    · by_cases hnew : (validatePathSecurity settings
          (pathJoin (pathDirname
            (validatePathSecurity settings oldPath).resolvedPath)
            newName)).valid = true
      · refine ⟨?_, ?_, fun _ _ => ?_⟩ <;>
          simp [renameItem, hold, hnew, hex]
      · refine ⟨?_, ?_, fun _ h => absurd h hnew⟩ <;>
          simp [renameItem, hold, hnew]
    · refine ⟨?_, ?_, fun h _ => absurd h hold⟩ <;> simp [renameItem, hold]
  · intro hex
    by_cases hsrc : (validatePathSecurity settings sourcePath).valid = true
    · by_cases hdest : (validatePathSecurity settings
          (pathJoin targetFolderPath (pathBasename
            (validatePathSecurity settings
              sourcePath).resolvedPath))).valid = true
      · by_cases hself : strStartsWith (validatePathSecurity settings
            (pathJoin targetFolderPath (pathBasename
              (validatePathSecurity settings
                sourcePath).resolvedPath))).resolvedPath
            ((validatePathSecurity settings sourcePath).resolvedPath ++ "/")
            = true
        · refine ⟨?_, ?_, fun _ _ h =>
            absurd hself (by simp [h])⟩ <;>
            simp [moveItem, hsrc, hdest, hself]
        · refine ⟨?_, ?_, fun _ _ _ => ?_⟩ <;>
            simp [moveItem, hsrc, hdest, hself, hex]
      · refine ⟨?_, ?_, fun _ h _ => absurd h hdest⟩ <;>
          simp [moveItem, hsrc, hdest]
    · refine ⟨?_, ?_, fun h _ _ => absurd h hsrc⟩ <;> simp [moveItem, hsrc]

/-- Witness for `create_rename_move_no_overwrite` at Scenario E:
`rename("/w/a.md", "b.md")` while `/w/b.md` exists. -/
theorem create_rename_move_no_overwrite_witness :
    (renameItem wSettings "/w/a.md" "b.md" wFs).1.success = false ∧
    (renameItem wSettings "/w/a.md" "b.md" wFs).2 = wFs ∧
    (renameItem wSettings "/w/a.md" "b.md" wFs).1.error =
      some "An item with this name already exists" := by
  have h := (create_rename_move_no_overwrite wSettings wFs "" "x.md" ""
    "/w/a.md" "b.md" "/w/a.md" "/w").2.1 (by decide)
  exact ⟨h.1, h.2.1, h.2.2 (by decide) (by decide)⟩

end MdExplorer

namespace MdExplorer

theorem nodeLe_trans (a b c : FileNode) (hab : nodeLe a b = true)
    (hbc : nodeLe b c = true) : nodeLe a c = true := by
  unfold nodeLe at hab hbc ⊢
  by_cases h1 : a.type = b.type <;> by_cases h2 : b.type = c.type
  · rw [if_pos h1] at hab
    rw [if_pos h2] at hbc
    rw [if_pos (h1.trans h2)]
    simp only [decide_eq_true_eq] at hab hbc ⊢
    exact le_trans hab hbc
  · rw [if_neg (fun h => h2 (h1.symm.trans h))]
    rw [if_neg h2] at hbc
    rw [h1]
    exact hbc
  · rw [if_neg (fun h => h1 (h.trans h2.symm))]
    rw [if_neg h1] at hab
    exact hab
  · rw [if_neg h1] at hab
    rw [if_neg h2] at hbc
    simp only [decide_eq_true_eq] at hab hbc
    exact absurd (hab.trans hbc.symm) h1

theorem nodeLe_total (a b : FileNode) :
    (nodeLe a b || nodeLe b a) = true := by
  unfold nodeLe
  by_cases h : a.type = b.type
  · rw [if_pos h, if_pos h.symm]
    simp only [Bool.or_eq_true, decide_eq_true_eq]
    exact le_total a.name b.name
  · rw [if_neg h, if_neg (fun hh => h hh.symm)]
    simp only [Bool.or_eq_true, decide_eq_true_eq]
    cases ha : a.type <;> cases hb : b.type <;> simp_all

theorem collectNodes_eq_filterMap (settings : AppSettings)
    (targetPath : String) (entries : List DirEntry) :
    collectNodes settings targetPath entries =
      entries.filterMap (nodeOf settings targetPath) := by
  induction entries with
  | nil => simp [collectNodes]
  | cons e rest ih =>
    cases h : nodeOf settings targetPath e <;>
      simp [collectNodes, List.filterMap_cons, h, ih]

theorem nodeOf_eq_none_iff (settings : AppSettings) (targetPath : String)
    (e : DirEntry) :
    nodeOf settings targetPath e = none ↔
      shouldExclude settings e.name e.isDir = true := by
  cases e with
  | file name =>
    simp only [nodeOf, DirEntry.name, DirEntry.isDir]
    split <;> simp_all
  | dir name children =>
    simp only [nodeOf, DirEntry.name, DirEntry.isDir]
    split <;> simp_all

/-- C9: `readDirectory` returns, up to ordering, exactly the nodes of the
non-excluded entries (an entry is dropped precisely when `shouldExclude`
matches its name or extension against the settings), and the returned list
is sorted with every directory before every file and each group in
alphabetical order by name. -/
theorem readDirectory_filters_and_sorts (settings : AppSettings)
    (targetPath : String) (entries : List DirEntry) :
    (readDirectory settings targetPath entries).Perm
      (entries.filterMap (nodeOf settings targetPath)) ∧
    (∀ e : DirEntry, nodeOf settings targetPath e = none ↔
      shouldExclude settings e.name e.isDir = true) ∧
    (readDirectory settings targetPath entries).Pairwise
      (fun a b => (a.type = NodeType.directory ∧ b.type = NodeType.file) ∨
        (a.type = b.type ∧ a.name ≤ b.name)) := by
  refine ⟨?_, fun e => nodeOf_eq_none_iff settings targetPath e, ?_⟩
  · rw [readDirectory, collectNodes_eq_filterMap]
    exact List.mergeSort_perm _ _
  · rw [readDirectory]
    have hs : ((collectNodes settings targetPath
        entries).mergeSort nodeLe).Pairwise (fun a b => nodeLe a b = true) :=
      List.sorted_mergeSort (fun a b c => nodeLe_trans a b c)
        (fun a b => nodeLe_total a b)
        (collectNodes settings targetPath entries)
    refine hs.imp ?_
    intro a b h
    unfold nodeLe at h
    by_cases ht : a.type = b.type
    · rw [if_pos ht] at h
      simp only [decide_eq_true_eq] at h
      exact Or.inr ⟨ht, h⟩
    · rw [if_neg ht] at h
      simp only [decide_eq_true_eq] at h
      refine Or.inl ⟨h, ?_⟩
      cases hb : b.type
      · rfl
      · exact absurd (h.trans hb.symm) ht

end MdExplorer

namespace MdExplorer

/-! ## Decimal rendering lemmas (for duplicateFile name generation) -/

theorem natDigitsGo_fuel :
    ∀ (f1 f2 n : Nat), n < f1 → n < f2 → natDigitsGo f1 n = natDigitsGo f2 n := by
  intro f1
  induction f1 with
  | zero => intro f2 n h1; omega
  | succ f ih =>
    intro f2 n h1 h2
    cases f2 with
    | zero => omega
    | succ g =>
      simp only [natDigitsGo]
      by_cases h : n < 10
      · rw [if_pos h, if_pos h]
      · rw [if_neg h, if_neg h]
        have hd : n / 10 < n := Nat.div_lt_self (by omega) (by omega)
        rw [ih g (n / 10) (by omega) (by omega)]

theorem natDigits_unfold (n : Nat) :
    natDigits n = if n < 10 then [digitChar n]
      else natDigits (n / 10) ++ [digitChar (n % 10)] := by
  unfold natDigits
  rw [show natDigitsGo (n + 1) n = if n < 10 then [digitChar n]
    else natDigitsGo n (n / 10) ++ [digitChar (n % 10)] from rfl]
  by_cases h : n < 10
  · rw [if_pos h, if_pos h]
  · rw [if_neg h, if_neg h]
    have hd : n / 10 < n := Nat.div_lt_self (by omega) (by omega)
    exact congrArg (fun l => l ++ [digitChar (n % 10)])
      (natDigitsGo_fuel n (n / 10 + 1) (n / 10) (by omega) (by omega))

theorem natDigits_ne_nil (n : Nat) : natDigits n ≠ [] := by
  rw [natDigits_unfold]
  split <;> simp

theorem digitChar_inj (a b : Nat) (ha : a < 10) (hb : b < 10)
    (h : digitChar a = digitChar b) : a = b := by
  revert h
  interval_cases a <;> interval_cases b <;> decide

theorem digitChar_ne_slash (a : Nat) : digitChar a ≠ '/' := by
  unfold digitChar
  split <;> decide

theorem natDigits_no_slash (n : Nat) : '/' ∉ natDigits n := by
  induction n using Nat.strong_induction_on with
  | _ n ih =>
    rw [natDigits_unfold]
    by_cases h : n < 10
    · rw [if_pos h]
      simp only [List.mem_singleton]
      exact fun hh => digitChar_ne_slash n hh.symm
    · rw [if_neg h]
      intro hmem
      rcases List.mem_append.mp hmem with hm | hm
      · exact ih (n / 10) (Nat.div_lt_self (by omega) (by omega)) hm
      · exact digitChar_ne_slash (n % 10) (List.mem_singleton.mp hm).symm

theorem natDigits_inj : ∀ (m n : Nat), natDigits m = natDigits n → m = n := by
  intro m
  induction m using Nat.strong_induction_on with
  | _ m ih =>
    intro n h
    rw [natDigits_unfold m, natDigits_unfold n] at h
    by_cases hm : m < 10 <;> by_cases hn : n < 10
    · rw [if_pos hm, if_pos hn] at h
      exact digitChar_inj m n hm hn (by simpa using h)
    · rw [if_pos hm, if_neg hn] at h
      have hl := congrArg List.length h
      simp only [List.length_singleton, List.length_append,
        List.length_cons, List.length_nil] at hl
      have h0 : (natDigits (n / 10)).length = 0 := by omega
      exact absurd (List.length_eq_zero.mp h0) (natDigits_ne_nil (n / 10))
    · rw [if_neg hm, if_pos hn] at h
      have hl := congrArg List.length h
      simp only [List.length_singleton, List.length_append,
        List.length_cons, List.length_nil] at hl
      have h0 : (natDigits (m / 10)).length = 0 := by omega
      exact absurd (List.length_eq_zero.mp h0) (natDigits_ne_nil (m / 10))
    · rw [if_neg hm, if_neg hn] at h
      have hrev := congrArg List.reverse h
      simp only [List.reverse_append, List.reverse_singleton,
        List.singleton_append] at hrev
      have h1 : digitChar (m % 10) = digitChar (n % 10) :=
        (List.cons.inj hrev).1
      have h2 : natDigits (m / 10) = natDigits (n / 10) :=
        List.reverse_inj.mp (List.cons.inj hrev).2
      have e1 : m % 10 = n % 10 :=
        digitChar_inj _ _ (Nat.mod_lt m (by omega)) (Nat.mod_lt n (by omega))
          h1
      have e2 : m / 10 = n / 10 :=
        ih (m / 10) (Nat.div_lt_self (by omega) (by omega)) (n / 10) h2
      omega

end MdExplorer

namespace MdExplorer

theorem copyName_inj (b e : String) (m n : Nat) (hm : 1 ≤ m) (hn : 1 ≤ n)
    (h : copyName b e m = copyName b e n) : m = n := by
  have hc5 : (" copy" : String).length = 5 := rfl
  have hc6 : (" copy " : String).length = 6 := rfl
  have hpos : ∀ k : Nat, 0 < (natToStr k).length := fun k =>
    List.length_pos.mpr (natDigits_ne_nil k)
  by_cases h1 : m ≤ 1 <;> by_cases h2 : n ≤ 1
  · omega
  · exfalso
    have hl := congrArg String.length h
    rw [copyName, copyName, if_pos h1, if_neg h2] at hl
    simp only [String.length_append, hc5, hc6] at hl
    have := hpos n
    omega
  · exfalso
    have hl := congrArg String.length h
    rw [copyName, copyName, if_neg h1, if_pos h2] at hl
    simp only [String.length_append, hc5, hc6] at hl
    have := hpos m
    omega
  · have ht := congrArg String.toList h
    rw [copyName, copyName, if_neg h1, if_neg h2] at ht
    simp only [toList_append, List.append_assoc] at ht
    have ht2 := List.append_cancel_left ht
    have ht3 := List.append_cancel_left ht2
    have ht4 := List.append_cancel_right ht3
    exact natDigits_inj m n ht4

theorem copyName_no_slash {b e : String} (hb : '/' ∉ b.toList)
    (he : '/' ∉ e.toList) (n : Nat) : '/' ∉ (copyName b e n).toList := by
  intro hmem
  rw [copyName] at hmem
  split at hmem <;> simp only [toList_append, List.append_assoc,
    List.mem_append] at hmem
  · rcases hmem with hm | hm | hm
    · exact hb hm
    · exact absurd hm (by decide)
    · exact he hm
  · rcases hmem with hm | hm | hm | hm
    · exact hb hm
    · exact absurd hm (by decide)
    · exact natDigits_no_slash n hm
    · exact he hm

theorem cleanSeg_copyName {b e : String} (hb : '/' ∉ b.toList)
    (he : '/' ∉ e.toList) (n : Nat) : cleanSeg (copyName b e n) := by
  have hc5 : (" copy" : String).length = 5 := rfl
  have hc6 : (" copy " : String).length = 6 := rfl
  have hlen : 5 ≤ (copyName b e n).length := by
    rw [copyName]
    split <;> simp only [String.length_append, hc5, hc6] <;> omega
  refine ⟨?_, ?_, ?_, copyName_no_slash hb he n⟩
  · intro hh
    rw [hh] at hlen
    exact absurd hlen (by decide)
  · intro hh
    rw [hh] at hlen
    exact absurd hlen (by decide)
  · intro hh
    rw [hh] at hlen
    exact absurd hlen (by decide)

theorem pathJoin_inj_name {dir nm1 nm2 : String} (h1 : cleanSeg nm1)
    (h2 : cleanSeg nm2) (h : pathJoin dir nm1 = pathJoin dir nm2) :
    nm1 = nm2 := by
  have hs := congrArg segsOf h
  rw [show segsOf (pathJoin dir nm1) = segsOf dir ++ [nm1] by
      unfold pathJoin; rw [segsOf_resolveAbs, segsOf_append_seg h1],
    show segsOf (pathJoin dir nm2) = segsOf dir ++ [nm2] by
      unfold pathJoin; rw [segsOf_resolveAbs, segsOf_append_seg h2]] at hs
  have := List.append_cancel_left hs
  simpa using this

theorem pathJoin_ne_root {dir nm : String} (h : cleanSeg nm) :
    pathJoin dir nm ≠ "/" := by
  intro hh
  unfold pathJoin at hh
  rw [resolveAbs_eq_root_iff] at hh
  rw [segsOf_append_seg h] at hh
  simp at hh

theorem pathBasename_no_slash (p : String) :
    '/' ∉ (pathBasename p).toList := by
  unfold pathBasename
  cases hl : (segsOf p).getLast? with
  | none => simp
  | some x =>
    have hx : x ∈ segsOf p := List.mem_of_getLast?_eq_some hl
    exact (segsOf_clean x hx).2.2.2

theorem pathExtname_no_slash (p : String) :
    '/' ∉ (pathExtname p).toList := by
  unfold pathExtname
  dsimp only
  split
  · intro hmem
    rcases List.mem_cons.mp hmem with hm | hm
    · exact absurd hm (by decide)
    · rw [List.mem_reverse] at hm
      have hm2 := (List.takeWhile_sublist _).subset hm
      rw [List.mem_reverse] at hm2
      exact pathBasename_no_slash p hm2
  · simp

end MdExplorer

namespace MdExplorer

theorem firstFreeCopyIndex_spec (fs : Fs) (dir b e : String)
    (hb : '/' ∉ b.toList) (he : '/' ∉ e.toList) :
    1 ≤ firstFreeCopyIndex fs dir b e ∧
    fsExists fs
      (copyCandidate dir b e (firstFreeCopyIndex fs dir b e)) = false := by
  cases hfind : (List.range (fs.length + 2)).find?
      (fun m => ¬ fsExists fs (copyCandidate dir b e (m + 1))) with
  | some m =>
    have hval : firstFreeCopyIndex fs dir b e = m + 1 := by
      unfold firstFreeCopyIndex
      rw [hfind]
    rw [hval]
    have hp := List.find?_some hfind
    simp only [decide_eq_true_eq] at hp
    exact ⟨by omega, by simpa using hp⟩
  | none =>
    exfalso
    have hall : ∀ m, m ∈ List.range (fs.length + 2) →
        fsExists fs (copyCandidate dir b e (m + 1)) = true := by
      intro m hm
      have hh := List.find?_eq_none.mp hfind m hm
      simpa using hh
    have hinj : Function.Injective
        (fun m : Nat => copyCandidate dir b e (m + 1)) := by
      intro m1 m2 hc
      have hn1 := cleanSeg_copyName hb he (m1 + 1)
      have hn2 := cleanSeg_copyName hb he (m2 + 1)
      have h1 := pathJoin_inj_name hn1 hn2 hc
      have h2 := copyName_inj b e (m1 + 1) (m2 + 1) (by omega) (by omega) h1
      omega
    have hnodup : ((List.range (fs.length + 2)).map
        (fun m => copyCandidate dir b e (m + 1))).Nodup :=
      (List.nodup_range _).map hinj
    have hsub : ((List.range (fs.length + 2)).map
        (fun m => copyCandidate dir b e (m + 1))) ⊆ fs.map Prod.fst := by
      intro x hx
      rcases List.mem_map.mp hx with ⟨m, hm, rfl⟩
      have hex := hall m hm
      have hroot : pathResolve (copyCandidate dir b e (m + 1)) =
          copyCandidate dir b e (m + 1) := pathResolve_pathJoin dir _
      unfold fsExists at hex
      rw [Bool.or_eq_true] at hex
      rcases hex with hex | hex
      · unfold fsLookup at hex
        cases hkv : fs.find?
            (fun kv => kv.1 = pathResolve (copyCandidate dir b e (m + 1)))
            with
        | none => rw [hkv] at hex; simp at hex
        | some kv =>
          have hmem := List.mem_of_find?_eq_some hkv
          have hkey := List.find?_some hkv
          simp only [decide_eq_true_eq] at hkey
          rw [← hroot, ← hkey]
          exact List.mem_map.mpr ⟨_, hmem, rfl⟩
      · simp only [decide_eq_true_eq] at hex
        rw [hroot] at hex
        exact absurd hex (pathJoin_ne_root (cleanSeg_copyName hb he (m + 1)))
    have hlen := (hnodup.subperm hsub).length_le
    simp only [List.length_map, List.length_range] at hlen
    omega

end MdExplorer

namespace MdExplorer

theorem strDropRight_no_slash {s : String} (h : '/' ∉ s.toList) (n : Nat) :
    '/' ∉ (strDropRight s n).toList := by
  intro hm
  exact h (List.take_subset _ _ hm)

theorem fsLookup_congr {p q : String} (fs : Fs)
    (h : pathResolve p = pathResolve q) : fsLookup fs p = fsLookup fs q := by
  unfold fsLookup
  rw [h]

theorem fsLookup_fsWrite_self (fs : Fs) (p c : String) :
    fsLookup (fsWrite fs p c) p = some (FsEntry.file c) := by
  simp [fsLookup, fsWrite, List.find?]

theorem fsLookup_fsWrite_other (fs : Fs) (p q c : String)
    (h : ¬ pathResolve p = pathResolve q) :
    fsLookup (fsWrite fs p c) q = fsLookup fs q := by
  simp only [fsLookup, fsWrite, List.find?]
  rw [show (decide (pathResolve p = pathResolve q)) = false by simp [h]]

theorem fsExists_false_lookup_none {fs : Fs} {p : String}
    (h : fsExists fs p = false) : fsLookup fs p = none := by
  unfold fsExists at h
  cases hl : fsLookup fs p with
  | none => rfl
  | some e =>
    rw [hl] at h
    simp at h

/-- C10: duplicating an existing regular file writes the original content
to a fresh candidate path of the shape `<base> copy<ext>` (counter 1) or
`<base> copy <N><ext>` that did not previously exist, never overwriting
anything and leaving the original untouched; duplicating a directory is an
error that changes nothing. -/
theorem duplicateFile_fresh_copy (settings : AppSettings)
    (filePath : String) (fs : Fs) :
    (∀ content : String,
      (validatePathSecurity settings filePath).valid = true →
      fsLookup fs (validatePathSecurity settings filePath).resolvedPath =
        some (FsEntry.file content) →
      ∃ k : Nat, 1 ≤ k ∧
        (duplicateFile settings filePath fs).1 =
          { success := true,
            newPath := some (copyCandidate
              (pathDirname (pathResolve filePath))
              (strDropRight (pathBasename (pathResolve filePath))
                (pathExtname (pathResolve filePath)).length)
              (pathExtname (pathResolve filePath)) k) } ∧
        fsExists fs (copyCandidate
          (pathDirname (pathResolve filePath))
          (strDropRight (pathBasename (pathResolve filePath))
            (pathExtname (pathResolve filePath)).length)
          (pathExtname (pathResolve filePath)) k) = false ∧
        fsLookup (duplicateFile settings filePath fs).2
          (copyCandidate (pathDirname (pathResolve filePath))
            (strDropRight (pathBasename (pathResolve filePath))
              (pathExtname (pathResolve filePath)).length)
            (pathExtname (pathResolve filePath)) k) =
          some (FsEntry.file content) ∧
        fsLookup (duplicateFile settings filePath fs).2
          (validatePathSecurity settings filePath).resolvedPath =
          some (FsEntry.file content)) ∧
    ((validatePathSecurity settings filePath).valid = true →
      fsLookup fs (validatePathSecurity settings filePath).resolvedPath =
        some FsEntry.dir →
      (duplicateFile settings filePath fs).1 =
        { success := false, error := some "Can only duplicate files" } ∧
      (duplicateFile settings filePath fs).2 = fs) := by
  constructor
  · intro content hvalid hfile
    have hvalid2 : strStartsWith (pathResolve filePath)
        (pathResolve settings.rootDirectory) = true := by
      simpa [validatePathSecurity] using hvalid
    have hfile2 : fsLookup fs (pathResolve filePath) =
        some (FsEntry.file content) := by
      simpa [validatePathSecurity] using hfile
    have hb : '/' ∉ (strDropRight (pathBasename (pathResolve filePath))
        (pathExtname (pathResolve filePath)).length).toList :=
      strDropRight_no_slash (pathBasename_no_slash _) _
    have he : '/' ∉ (pathExtname (pathResolve filePath)).toList :=
      pathExtname_no_slash _
    obtain ⟨hk1, hkfree⟩ := firstFreeCopyIndex_spec fs
      (pathDirname (pathResolve filePath))
      (strDropRight (pathBasename (pathResolve filePath))
        (pathExtname (pathResolve filePath)).length)
      (pathExtname (pathResolve filePath)) hb he
    have hdup : duplicateFile settings filePath fs =
        ({ success := true,
           newPath := some (copyCandidate
             (pathDirname (pathResolve filePath))
             (strDropRight (pathBasename (pathResolve filePath))
               (pathExtname (pathResolve filePath)).length)
             (pathExtname (pathResolve filePath))
             (firstFreeCopyIndex fs (pathDirname (pathResolve filePath))
               (strDropRight (pathBasename (pathResolve filePath))
                 (pathExtname (pathResolve filePath)).length)
               (pathExtname (pathResolve filePath)))) },
         fsWrite fs (copyCandidate
           (pathDirname (pathResolve filePath))
           (strDropRight (pathBasename (pathResolve filePath))
             (pathExtname (pathResolve filePath)).length)
           (pathExtname (pathResolve filePath))
           (firstFreeCopyIndex fs (pathDirname (pathResolve filePath))
             (strDropRight (pathBasename (pathResolve filePath))
               (pathExtname (pathResolve filePath)).length)
             (pathExtname (pathResolve filePath)))) content) := by
      simp [duplicateFile, validatePathSecurity, hvalid2, fsStat, hfile2,
        copyCandidate]
    have hnpres : pathResolve (copyCandidate
        (pathDirname (pathResolve filePath))
        (strDropRight (pathBasename (pathResolve filePath))
          (pathExtname (pathResolve filePath)).length)
        (pathExtname (pathResolve filePath))
        (firstFreeCopyIndex fs (pathDirname (pathResolve filePath))
          (strDropRight (pathBasename (pathResolve filePath))
            (pathExtname (pathResolve filePath)).length)
          (pathExtname (pathResolve filePath)))) = copyCandidate
        (pathDirname (pathResolve filePath))
        (strDropRight (pathBasename (pathResolve filePath))
          (pathExtname (pathResolve filePath)).length)
        (pathExtname (pathResolve filePath))
        (firstFreeCopyIndex fs (pathDirname (pathResolve filePath))
          (strDropRight (pathBasename (pathResolve filePath))
            (pathExtname (pathResolve filePath)).length)
          (pathExtname (pathResolve filePath))) :=
      pathResolve_pathJoin _ _
    have hlooknp : fsLookup fs (copyCandidate
        (pathDirname (pathResolve filePath))
        (strDropRight (pathBasename (pathResolve filePath))
          (pathExtname (pathResolve filePath)).length)
        (pathExtname (pathResolve filePath))
        (firstFreeCopyIndex fs (pathDirname (pathResolve filePath))
          (strDropRight (pathBasename (pathResolve filePath))
            (pathExtname (pathResolve filePath)).length)
          (pathExtname (pathResolve filePath)))) = none :=
      fsExists_false_lookup_none hkfree
    have hne : ¬ pathResolve (copyCandidate
        (pathDirname (pathResolve filePath))
        (strDropRight (pathBasename (pathResolve filePath))
          (pathExtname (pathResolve filePath)).length)
        (pathExtname (pathResolve filePath))
        (firstFreeCopyIndex fs (pathDirname (pathResolve filePath))
          (strDropRight (pathBasename (pathResolve filePath))
            (pathExtname (pathResolve filePath)).length)
          (pathExtname (pathResolve filePath)))) =
        pathResolve (pathResolve filePath) := by
      intro h
      have hcl := fsLookup_congr fs h
      rw [hlooknp, hfile2] at hcl
      simp at hcl
    refine ⟨firstFreeCopyIndex fs (pathDirname (pathResolve filePath))
      (strDropRight (pathBasename (pathResolve filePath))
        (pathExtname (pathResolve filePath)).length)
      (pathExtname (pathResolve filePath)), hk1, ?_, hkfree, ?_, ?_⟩
    · rw [hdup]
    · rw [hdup]
      exact fsLookup_fsWrite_self fs _ content
    · rw [hdup]
      simp only [validatePathSecurity]
      rw [fsLookup_fsWrite_other fs _ _ content hne]
      exact hfile2
  · intro hvalid hdir
    have hvalid2 : strStartsWith (pathResolve filePath)
        (pathResolve settings.rootDirectory) = true := by
      simpa [validatePathSecurity] using hvalid
    have hdir2 : fsLookup fs (pathResolve filePath) = some FsEntry.dir := by
      simpa [validatePathSecurity] using hdir
    constructor <;> simp [duplicateFile, validatePathSecurity, hvalid2,
      fsStat, hdir2]

end MdExplorer

namespace MdExplorer

/-- Witness for `duplicateFile_fresh_copy`: duplicating `/w/a.md` in the
sample tree succeeds, copies the content to a fresh candidate path, and
keeps the original intact. -/
theorem duplicateFile_fresh_copy_witness :
    (duplicateFile wSettings "/w/a.md" wFs).1.success = true ∧
    fsLookup (duplicateFile wSettings "/w/a.md" wFs).2
      (validatePathSecurity wSettings "/w/a.md").resolvedPath =
      some (FsEntry.file "# A") ∧
    ∃ k : Nat, 1 ≤ k ∧
      fsExists wFs (copyCandidate (pathDirname (pathResolve "/w/a.md"))
        (strDropRight (pathBasename (pathResolve "/w/a.md"))
          (pathExtname (pathResolve "/w/a.md")).length)
        (pathExtname (pathResolve "/w/a.md")) k) = false ∧
      fsLookup (duplicateFile wSettings "/w/a.md" wFs).2
        (copyCandidate (pathDirname (pathResolve "/w/a.md"))
          (strDropRight (pathBasename (pathResolve "/w/a.md"))
            (pathExtname (pathResolve "/w/a.md")).length)
          (pathExtname (pathResolve "/w/a.md")) k) =
        some (FsEntry.file "# A") := by
  obtain ⟨k, hk, h1, h2, h3, h4⟩ :=
    (duplicateFile_fresh_copy wSettings "/w/a.md" wFs).1 "# A"
      (by decide) (by decide)
  exact ⟨by rw [h1], h4, k, hk, h2, h3⟩

end MdExplorer
